import Mathlib

/-!
Verification of the CivitAI model-grabber scripts
(`civitAI_Model_downloader.py` and `fetch_all_models.py`).

The Python sources are shallowly embedded below: pure helpers become Lean
functions over `String` / `List Char`, the filesystem becomes an explicit
association list from paths to byte lists, network fetches become oracles
(functions from attempt number or URL to an outcome), and exceptions become
explicit outcome constructors.  Numeric file sizes are `Nat`; the one float
in the source (`expected_size_bytes * 0.01`) is modelled with exact
arithmetic by scaling the comparison by 100.
-/

/-! ## Generic list and character utilities -/

/-- Split a list at the last occurrence of `c`: if `splitLast l c = some (a, b)`
then `l = a ++ [c] ++ b` and `c ∉ b`; `none` when `c ∉ l`. -/
def splitLast (l : List Char) (c : Char) : Option (List Char × List Char) :=
  let r := l.reverse
  let pre := r.takeWhile (fun x => x ≠ c)
  match r.dropWhile (fun x => x ≠ c) with
  | [] => none
  | _ :: rs => some (rs.reverse, pre.reverse)

/-- Split a list at the first occurrence of `c`: if `splitFirst l c = some (a, b)`
then `l = a ++ [c] ++ b` and `c ∉ a`; `none` when `c ∉ l`. -/
def splitFirst (l : List Char) (c : Char) : Option (List Char × List Char) :=
  let a := l.takeWhile (fun x => x ≠ c)
  match l.dropWhile (fun x => x ≠ c) with
  | [] => none
  | _ :: b => some (a, b)

/-- `s.startswith(pre)` via the underlying character lists (structural, so
the kernel can evaluate it). -/
def strStartsWith (s pre : String) : Bool :=
  pre.data.isPrefixOf s.data

/-- `s.endswith(post)` via the underlying character lists. -/
def strEndsWith (s post : String) : Bool :=
  post.data.isSuffixOf s.data

/-- Drop characters satisfying `p` from both ends of a list
(Python `str.strip(chars)`). -/
def stripChars (p : Char → Bool) (l : List Char) : List Char :=
  ((l.dropWhile p).reverse.dropWhile p).reverse

/-- Helper for `collapse_underscores`: the flag records whether the
previous character was an underscore (in which case further underscores
are dropped). -/
def collapseAux : Bool → List Char → List Char
  | _, [] => []
  | prevU, c :: cs =>
    if c = '_' then
      if prevU then collapseAux true cs
      else '_' :: collapseAux true cs
    else c :: collapseAux false cs

/-- Collapse every run of underscores to a single underscore
(Python `re.sub(r'__+', '_', s)`; a single underscore is left unchanged,
so runs of any length map to one underscore either way). -/
def collapse_underscores (l : List Char) : List Char :=
  collapseAux false l

/-! ## os.path helpers (POSIX semantics, as the scripts run them) -/

/-- `os.path.splitext`: split a path into stem and extension.  The extension
starts at the last dot of the final path component, unless that component
consists only of leading dots up to that position. -/
def splitext (l : List Char) : List Char × List Char :=
  let p := splitLast l '/'
  let dir : List Char := match p with
    | some (a, _) => a ++ ['/']
    | none => []
  let base : List Char := match p with
    | some (_, b) => b
    | none => l
  match splitLast base '.' with
  | none => (l, [])
  | some (pre, post) =>
    if pre.all (fun c => c = '.') then (l, [])
    else (dir ++ pre, '.' :: post)

/-- `os.path.join` for two components (POSIX): an absolute second component
replaces the first; otherwise a single separator is inserted when needed. -/
def osJoin (a b : String) : String :=
  if strStartsWith b "/" then b
  else if a = "" then b
  else if strEndsWith a "/" then a ++ b
  else a ++ "/" ++ b

/-! ## Path resolution model

To state "the joined path resolves to the root or a descendant of it" we
resolve a path against a root given as a list of components: `.` and empty
components are skipped and `..` pops the last component, as POSIX path
resolution does in the absence of symlinks. -/

/-- Split a character list into path components at `/`. -/
def splitSlash : List Char → List (List Char)
  | [] => [[]]
  | c :: cs =>
    let r := splitSlash cs
    if c = '/' then [] :: r
    else match r with
      | [] => [[c]]
      | h :: t => (c :: h) :: t

/-- Resolve a component sequence against an accumulated absolute component
list: empty and `.` components are ignored, `..` pops one component. -/
def resolveComps (acc : List (List Char)) : List (List Char) → List (List Char)
  | [] => acc
  | p :: rest =>
    if p = [] ∨ p = ['.'] then resolveComps acc rest
    else if p = ['.', '.'] then resolveComps acc.dropLast rest
    else resolveComps (acc ++ [p]) rest

/-- Resolve a single path segment joined under a root component list. -/
def joinResolve (root : List (List Char)) (seg : String) : List (List Char) :=
  resolveComps root (splitSlash seg.data)

/-! ## Constants shared by both scripts -/

def WINDOWS_RESERVED_NAMES : List String :=
  ["CON", "PRN", "AUX", "NUL",
   "COM1", "COM2", "COM3", "COM4", "COM5", "COM6", "COM7", "COM8", "COM9",
   "LPT1", "LPT2", "LPT3", "LPT4", "LPT5", "LPT6", "LPT7", "LPT8", "LPT9"]

def MAX_PATH_LENGTH : Nat := 200
def MAX_PAGES : Nat := 1000
def MAX_NAME_LENGTH : Nat := 500
def MAX_ITEMS_PER_CATEGORY : Nat := 30000

/-- Default of the `--retry_delay` command-line argument (seconds). -/
def retry_delay_default : Nat := 10

/-- Default of the `--max_tries` command-line argument. -/
def max_tries_default : Nat := 3

/-! ## `sanitize_name` (civitAI_Model_downloader.py, lines 253-281) -/

/-- Characters replaced by `_`: the regex class
`[<>:"/\\|?*\x00-\x1f\x7f-\x9f]`. -/
def isDisallowedChar (c : Char) : Bool :=
  c = '<' ∨ c = '>' ∨ c = ':' ∨ c = '"' ∨ c = '/' ∨ c = '\\' ∨
    c = '|' ∨ c = '?' ∨ c = '*' ∨ c.toNat ≤ 0x1f ∨
    (0x7f ≤ c.toNat ∧ c.toNat ≤ 0x9f)

/-- Python truthiness of an optional string argument. -/
def optTruthy : Option String → Bool
  | none => false
  | some s => s ≠ ""

/-- Python slice `l[:n]` where `n` may be negative. -/
def pySliceTo (l : List Char) (n : Int) : List Char :=
  if 0 ≤ n then l.take n.toNat
  else l.take (((l.length : Int) + n).toNat)

/-- Python `s.rsplit('_', 1)[0]`. -/
def rsplitTakeUnderscore (l : List Char) : List Char :=
  match splitLast l '_' with
  | some (a, _) => a
  | none => l

/-- `sanitize_name(name, folder_name, max_length, subfolder, output_dir,
username)` from the downloader: splitext, early return when the stem equals
`folder_name`, remove the folder name, replace disallowed characters,
reject reserved device names, collapse underscores, strip `_`/`.` from the
ends, optional length clamping, then reattach the extension and strip
whitespace. -/
def sanitize_name (name : String) (folder_name : Option String)
    (max_length : Nat) (subfolder output_dir username : Option String) : String :=
  let se := splitext name.data
  let stem0 := se.1
  let ext := se.2
  if optTruthy folder_name ∧ String.mk stem0 = folder_name.getD "" then name
  else
    let base1 : List Char :=
      if optTruthy folder_name then
        stripChars (fun c => c = '_')
          (((String.mk stem0).replace (folder_name.getD "") "").data)
      else stem0
    let base2 := base1.map (fun c => if isDisallowedChar c then '_' else c)
    let base3 :=
      if String.mk (base2.map Char.toUpper) ∈ WINDOWS_RESERVED_NAMES then ['_']
      else base2
    let base4 := stripChars (fun c => c = '_' ∨ c = '.') (collapse_underscores base3)
    let base5 :=
      match subfolder, output_dir, username with
      | some sf, some od, some un =>
        if sf ≠ "" ∧ od ≠ "" ∧ un ≠ "" then
          let path_length := (osJoin (osJoin od un) sf).length
          let maxBase : Int := (max_length : Int) - (ext.length : Int) - (path_length : Int)
          rsplitTakeUnderscore (pySliceTo base4 maxBase)
        else base4
      | _, _, _ => base4
    String.mk (stripChars Char.isWhitespace (base5 ++ ext))

/-! ## `sanitize_username` (fetch_all_models.py, lines 84-115) -/

/-- The character class kept by `re.sub(r'[^a-zA-Z0-9_\-]', '_', username)`. -/
def usernameAllowedChar (c : Char) : Bool :=
  ('a' ≤ c ∧ c ≤ 'z') ∨ ('A' ≤ c ∧ c ≤ 'Z') ∨ ('0' ≤ c ∧ c ≤ '9') ∨
    c = '_' ∨ c = '-'

/-- `sanitize_username`: replace every character outside `[a-zA-Z0-9_-]` by
`_`, strip `_`/`.` from the ends, reject empty or content-free results,
prefix all-digit names with `user_`, reject Windows reserved device names,
and truncate to 64 characters.  Raised `ValueError`s become `Except.error`. -/
def sanitize_username (username : String) : Except String String :=
  if username = "" then Except.error "Username must be a non-empty string"
  else
    let safe0 := username.data.map (fun c => if usernameAllowedChar c then c else '_')
    let safe1 := stripChars (fun c => c = '_' ∨ c = '.') safe0
    if safe1 = [] then Except.error "cannot be sanitized to a valid filename"
    else if stripChars (fun c => c = '_' ∨ c = '-') safe1 = [] then
      Except.error "contains no alphanumeric characters"
    else
      let safe2 := if safe1.all Char.isDigit then "user_".data ++ safe1 else safe1
      if String.mk (safe2.map Char.toUpper) ∈ WINDOWS_RESERVED_NAMES then
        Except.error "is a reserved system name"
      else
        let safe3 := if safe2.length > 64 then safe2.take 64 else safe2
        Except.ok (String.mk safe3)

/-! ## Category classifiers -/

/-- The content categories used for directory partitioning. -/
inductive Category where
  | Checkpoints
  | Embeddings
  | Lora
  | Training_Data
  | Other
deriving DecidableEq

/-- File-level classifier from `download_model_files`
(civitAI_Model_downloader.py, lines 383-408): the subfolder is chosen from
the file extension and the item's `type` field (`none` models an item
without a `type` key). -/
def classify_file (item_type : Option String) (file_name : String) : Category :=
  if strEndsWith file_name ".zip" then
    match item_type with
    | some t =>
      if t = "LORA" then Category.Lora
      else if t = "Training_Data" then Category.Training_Data
      else Category.Other
    | none => Category.Other
  else if strEndsWith file_name ".safetensors" then
    match item_type with
    | some t =>
      if t = "Checkpoint" then Category.Checkpoints
      else if t = "TextualInversion" then Category.Embeddings
      else if t = "VAE" ∨ t = "LoCon" then Category.Other
      else Category.Lora
    | none => Category.Lora
  else if strEndsWith file_name ".pt" then
    match item_type with
    | some t => if t = "TextualInversion" then Category.Embeddings else Category.Other
    | none => Category.Other
  else Category.Other

/-- Modelled from the spec's decision table for the file-level classifier
(extension first, then provider type), written independently of
`classify_file` so the two can be compared. -/
def classify_table (item_type : Option String) (file_name : String) : Category :=
  if strEndsWith file_name ".zip" then
    if item_type = some "LORA" then Category.Lora
    else if item_type = some "Training_Data" then Category.Training_Data
    else Category.Other
  else if strEndsWith file_name ".safetensors" then
    if item_type = some "Checkpoint" then Category.Checkpoints
    else if item_type = some "TextualInversion" then Category.Embeddings
    else if item_type = some "VAE" ∨ item_type = some "LoCon" then Category.Other
    else Category.Lora
  else if strEndsWith file_name ".pt" then
    if item_type = some "TextualInversion" then Category.Embeddings
    else Category.Other
  else Category.Other

/-- Item-level classifier `categorize_item` (fetch_all_models.py, lines
141-151): the provider type is upper-cased and mapped through a fixed
dictionary, defaulting to `Other`. -/
def categorize_item (item_type : Option String) : Category :=
  let t := String.mk ((item_type.getD "").data.map Char.toUpper)
  if t = "CHECKPOINT" then Category.Checkpoints
  else if t = "TEXTUALINVERSION" then Category.Embeddings
  else if t = "LORA" then Category.Lora
  else if t = "TRAINING_DATA" then Category.Training_Data
  else Category.Other

/-! ## Hash selection and integrity verification
(civitAI_Model_downloader.py, lines 100-172) -/

/-- First-match lookup in an association list, modelling a Python dict
(whose keys are unique). -/
def dictLookup (k : String) : List (String × String) → Option String
  | [] => none
  | (k2, v) :: rest => if k2 = k then some v else dictLookup k rest

/-- `get_best_hash_for_verification`: walk the priority list
BLAKE3, CRC32, SHA256 and return the first hash present, where an empty
dictionary short-circuits to no hash. -/
def get_best_hash_for_verification (hashes_dict : List (String × String)) :
    Option (String × String) :=
  if hashes_dict = [] then none
  else
    match dictLookup "BLAKE3" hashes_dict with
    | some v => some ("BLAKE3", v)
    | none =>
      match dictLookup "CRC32" hashes_dict with
      | some v => some ("CRC32", v)
      | none =>
        match dictLookup "SHA256" hashes_dict with
        | some v => some ("SHA256", v)
        | none => none

/-- Metadata of a file entry used for verification: the optional `sizeKB`
field and the `hashes` dictionary. -/
structure FileInfo where
  sizeKB : Option Nat
  hashes : List (String × String)
deriving DecidableEq

/-- `verify_file_integrity(file_path, expected_size_kb, expected_hashes)`.
`content` is the file's bytes (`none` when the file does not exist);
`verify_hashes_flag` is the `--verify_hashes` argument; `hashFn` abstracts
`calculate_file_hash` (algorithm name and bytes to upper-case hex digest,
`none` on error, in which case the mismatch test is skipped exactly as in
the source).  The 1% size tolerance (a Python float multiplication) is
modelled exactly by scaling the comparison by 100; the reason strings of
the source are dropped, only the boolean validity is kept. -/
def verify_file_integrity (file_path : String) (content : Option (List Nat))
    (expected_size_kb : Option Nat) (expected_hashes : List (String × String))
    (verify_hashes_flag : Bool) (hashFn : String → List Nat → Option String) : Bool :=
  match content with
  | none => false
  | some bytes =>
    let actual_size := bytes.length
    let sizeOk : Bool :=
      match expected_size_kb with
      | none => true
      | some kb =>
        let expected_size_bytes := kb * 1024
        let dist := if actual_size ≥ expected_size_bytes
          then actual_size - expected_size_bytes
          else expected_size_bytes - actual_size
        dist * 100 ≤ max (1024 * 100) expected_size_bytes
    if ¬ sizeOk then false
    else if strEndsWith file_path ".safetensors" ∧ actual_size < 4 * 1024 * 1024 then false
    else if verify_hashes_flag ∧ expected_hashes ≠ [] then
      match get_best_hash_for_verification expected_hashes with
      | some (hash_type, expected_hash) =>
        match hashFn hash_type bytes with
        | some actual_hash => actual_hash = String.mk (expected_hash.data.map Char.toUpper)
        | none => true
      | none => true
    else true

/-! ## URL parsing (urllib.parse.urlsplit, as used by both scripts) -/

/-- Characters allowed in a URL scheme by `urllib.parse`. -/
def schemeChar (c : Char) : Bool :=
  ('a' ≤ c ∧ c ≤ 'z') ∨ ('A' ≤ c ∧ c ≤ 'Z') ∨ ('0' ≤ c ∧ c ≤ '9') ∨
    c = '+' ∨ c = '-' ∨ c = '.'

/-- The components returned by `urlsplit`. -/
structure UrlParts where
  scheme : String
  netloc : String
  path : String
  query : String
  fragment : String
deriving DecidableEq

/-- `urllib.parse.urlsplit`: extract the scheme (lower-cased) when the text
before the first `:` starts with a letter and uses only scheme characters;
the netloc after `//` up to the first of `/?#`; then split off the fragment
at the first `#` and the query at the first `?`. -/
def urlsplit (url : String) : UrlParts :=
  let l := url.data
  let sr : List Char × List Char :=
    match splitFirst l ':' with
    | some (a, b) =>
      if a ≠ [] ∧ (a.headD ' ').isAlpha ∧ a.all schemeChar then
        (a.map Char.toLower, b)
      else ([], l)
    | none => ([], l)
  let scheme := sr.1
  let rest := sr.2
  let nr : List Char × List Char :=
    if rest.take 2 = ['/', '/'] then
      let r2 := rest.drop 2
      let nl := r2.takeWhile (fun c => c ≠ '/' ∧ c ≠ '?' ∧ c ≠ '#')
      (nl, r2.drop nl.length)
    else ([], rest)
  let netloc := nr.1
  let fr : List Char × List Char :=
    match splitFirst nr.2 '#' with
    | some (a, b) => (a, b)
    | none => (nr.2, [])
  let qr : List Char × List Char :=
    match splitFirst fr.1 '?' with
    | some (a, b) => (a, b)
    | none => (fr.1, [])
  ⟨String.mk scheme, String.mk netloc, String.mk qr.1, String.mk qr.2, String.mk fr.2⟩

/-- `sanitize_url_for_logging` (fetch_all_models.py, lines 74-81): rebuild
the URL from scheme, netloc and path only, dropping query and fragment. -/
def sanitize_url_for_logging (url : String) : String :=
  let parsed := urlsplit url
  parsed.scheme ++ "://" ++ parsed.netloc ++ parsed.path

/-- The pagination host allow-list `ALLOWED_API_HOSTS`. -/
def ALLOWED_API_HOSTS : List String := ["civitai.com", "www.civitai.com"]

/-- `validate_next_page_url` (fetch_all_models.py, lines 118-138): accept
only non-empty HTTPS URLs whose host is allow-listed and whose path starts
with `/api/`; any rejection returns `none`. -/
def validate_next_page_url (url : String) : Option String :=
  if url = "" then none
  else
    let parsed := urlsplit url
    if parsed.scheme ≠ "https" then none
    else if parsed.netloc ∉ ALLOWED_API_HOSTS then none
    else if ¬ strStartsWith parsed.path "/api/" then none
    else some url

/-! ## Token handling in the downloader
(civitAI_Model_downloader.py, lines 456-476 and 532-536) -/

/-- The token-appending step of `download_model_files`: the API token is
attached to the file URL as a query parameter. -/
def appendTokenToUrl (file_url token : String) : String :=
  if file_url.data.contains '?' then file_url ++ "&token=" ++ token ++ "&nsfw=true"
  else file_url ++ "?token=" ++ token ++ "&nsfw=true"

/-- The block appended to `failed_downloads_{username}.txt` when a file
download permanently fails (civitAI_Model_downloader.py, lines 473-476). -/
def failed_download_entry (item_name version_name file_url : String) : String :=
  "Item Name: " ++ item_name ++ " - " ++ version_name ++ "\n" ++
    "File URL: " ++ file_url ++ "\n" ++ "---\n"

/-- The listing URL built by `process_username` (line 536): username and
token are URL-encoded into the query string. -/
def process_username_listing_url (base username token : String) : String :=
  base ++ "?username=" ++ username ++ "&token=" ++ token ++ "&nsfw=true"

/-- The listing URL built by `paginate_api` (fetch_all_models.py, line 285):
no token appears; authentication uses the `Authorization` header. -/
def paginate_api_initial_url (base_url username : String) : String :=
  base_url ++ "?username=" ++ username ++ "&nsfw=true"

/-- The request headers built by `fetch_all_models` (lines 416-418): the
token goes into a bearer `Authorization` header only. -/
def fetch_all_models_headers (token : String) : List (String × String) :=
  if token = "" then [] else [("Authorization", "Bearer " ++ token)]

/-- `tokenAppears token s` states that the literal token occurs inside `s`. -/
def tokenAppears (token s : String) : Prop :=
  ∃ a b : String, s = a ++ token ++ b

/-! ## Filesystem model

The directories the scripts write into are modelled as association lists
from path to content; `fsSet` overwrites, `fsRemove` models `os.remove`
(a no-op on a missing path, matching the guarded removals in the source),
and a rename is a remove of the source plus a set of the target, which is
atomic here exactly because `os.rename`/`os.replace` are atomic. -/

def fsGet {α : Type} (fs : List (String × α)) (p : String) : Option α :=
  match fs with
  | [] => none
  | (q, v) :: rest => if q = p then some v else fsGet rest p

def fsRemove {α : Type} (fs : List (String × α)) (p : String) : List (String × α) :=
  match fs with
  | [] => []
  | (q, v) :: rest => if q = p then fsRemove rest p else (q, v) :: fsRemove rest p

def fsSet {α : Type} (fs : List (String × α)) (p : String) (v : α) : List (String × α) :=
  (p, v) :: fsRemove fs p

/-- Download-side filesystem: path to byte list. -/
abbrev FS := List (String × List Nat)

/-! ## `should_skip_download` and `download_file_or_image`
(civitAI_Model_downloader.py, lines 174-208 and 283-351) -/

/-- Outcome of one `session.get` attempt: an HTTP response whose body
streams completely, or an exception raised during the request or while
streaming (carrying whatever bytes had been written to the temporary file
at that point). -/
inductive Fetch where
  | resp (code : Nat) (body : List Nat)
  | exn (partialBytes : List Nat)

/-- `should_skip_download`: never skip under `--force_redownload` or when
the destination is missing; otherwise verify the existing file, keep it
when valid, and remove it (then download) when invalid. -/
def should_skip_download (force_redownload verify_flag : Bool)
    (hashFn : String → List Nat → Option String) (fs : FS)
    (file_path : String) (file_info : FileInfo) : Bool × FS :=
  if force_redownload then (false, fs)
  else
    match fsGet fs file_path with
    | none => (false, fs)
    | some bytes =>
      if verify_file_integrity file_path (some bytes) file_info.sizeKB
          file_info.hashes verify_flag hashFn then (true, fs)
      else (false, fsRemove fs file_path)

/-- Result of `download_file_or_image`: the returned boolean, the
filesystem, the number of `session.get` calls and the number of
`time.sleep(retry_delay)` calls performed. -/
structure DlResult where
  ok : Bool
  fs : FS
  attempts : Nat
  sleeps : Nat
deriving DecidableEq

/-- Recursion core of `download_file_or_image`.  The source guards every
retry by `retry_count < max_retries` and recurses with `retry_count + 1`;
here that guard is carried structurally as `remaining = max_retries -
retry_count` (in `Nat`, `retry_count < max_retries` iff `0 < remaining`),
so the kernel can evaluate the function.  Branches follow the source: a
404 returns `False` at once; `raise_for_status` turns any other status of
at least 400 into an exception handled by the `except` block (clean the
temporary file, sleep and retry, or log and fail); a streamed body is
written to `output_path + '.tmp'`, verified when file metadata is present
(removing the temporary file and retrying on failure), and renamed into
place on success. -/
def download_aux (hashFn : String → List Nat → Option String)
    (verify_flag force_redownload : Bool) (oracle : Nat → Fetch)
    (url output_path : String) (file_info : Option FileInfo) :
    Nat → Nat → FS → DlResult
  | remaining, retry_count, fs =>
    let skip : Bool × FS :=
      match file_info with
      | some fi => should_skip_download force_redownload verify_flag hashFn fs output_path fi
      | none => (false, fs)
    if skip.1 then ⟨true, skip.2, 0, 0⟩
    else
      let fs0 := skip.2
      let temp_path := output_path ++ ".tmp"
      match oracle retry_count with
      | Fetch.resp code body =>
        if code = 404 then ⟨false, fs0, 1, 0⟩
        else if 400 ≤ code then
          match remaining with
          | r + 1 =>
            let res := download_aux hashFn verify_flag force_redownload oracle
              url output_path file_info r (retry_count + 1) (fsRemove fs0 temp_path)
            ⟨res.ok, res.fs, res.attempts + 1, res.sleeps + 1⟩
          | 0 => ⟨false, fsRemove fs0 temp_path, 1, 0⟩
        else
          let fs1 := fsSet fs0 temp_path body
          match file_info with
          | some fi =>
            if verify_file_integrity temp_path (some body) fi.sizeKB fi.hashes
                verify_flag hashFn then
              ⟨true, fsSet (fsRemove fs1 temp_path) output_path body, 1, 0⟩
            else
              let fs2 := fsRemove fs1 temp_path
              match remaining with
              | r + 1 =>
                let res := download_aux hashFn verify_flag force_redownload oracle
                  url output_path file_info r (retry_count + 1) fs2
                ⟨res.ok, res.fs, res.attempts + 1, res.sleeps + 1⟩
              | 0 => ⟨false, fs2, 1, 0⟩
          | none => ⟨true, fsSet (fsRemove fs1 temp_path) output_path body, 1, 0⟩
      | Fetch.exn partialBytes =>
        let fs2 := fsRemove (fsSet fs0 temp_path partialBytes) temp_path
        match remaining with
        | r + 1 =>
          let res := download_aux hashFn verify_flag force_redownload oracle
            url output_path file_info r (retry_count + 1) fs2
          ⟨res.ok, res.fs, res.attempts + 1, res.sleeps + 1⟩
        | 0 => ⟨false, fs2, 1, 0⟩

/-- `download_file_or_image(url, output_path, file_info, retry_count,
max_retries)` over the abstract filesystem and fetch oracle. -/
def download_file_or_image (hashFn : String → List Nat → Option String)
    (verify_flag force_redownload : Bool) (oracle : Nat → Fetch) (fs : FS)
    (url output_path : String) (file_info : Option FileInfo)
    (retry_count max_retries : Nat) : DlResult :=
  download_aux hashFn verify_flag force_redownload oracle url output_path
    file_info (max_retries - retry_count) retry_count fs

/-! ## `write_summary` (fetch_all_models.py, lines 346-385) -/

/-- Outcome of the temporary-file phase of `write_summary`:
`creationFailed` is an `OSError` from `tempfile.NamedTemporaryFile` itself
(no file was created); `writeFailed partialContent` is an `OSError` from
`tmpfile.write`, `tmpfile.flush` or `os.fsync` after the file was created,
leaving `partialContent` as the bytes written so far; `written` means all
four steps succeeded. -/
inductive WriteOutcome where
  | creationFailed
  | writeFailed (partialContent : String)
  | written
deriving DecidableEq

/-- `write_summary` over a text filesystem.  `w` is the outcome of the
temporary-file creation, write, flush and fsync steps, `ok_replace` covers
`os.replace`; failures model the `OSError` that the source catches.
`tmp_name` is the fresh name chosen by `tempfile.NamedTemporaryFile` in
`script_dir`.  The path-traversal precheck uses resolved component lists
(`os.path.realpath` without symlinks); its `ValueError` is the
`Except.error` case and propagates before any file is touched.  The source
assigns `temp_path = tmpfile.name` only AFTER `write`, `flush` and `fsync`
all succeed (fetch_all_models.py line 370), so the `finally` guard
`if temp_path and os.path.exists(temp_path)` removes the temporary file
only when the whole write phase succeeded: a creation failure touches
nothing, a write/flush/fsync failure leaves `temp_path = None` and the
temporary file survives on disk with its partial content, and only the
`written` cases remove it (either via `os.replace` moving it into place,
or via `finally` when `os.replace` raised). -/
def write_summary (w : WriteOutcome) (ok_replace : Bool)
    (fs : List (String × String))
    (script_dir safe_username content tmp_name : String) :
    Except Unit (List (String × String)) :=
  let summary_path := script_dir ++ "/" ++ safe_username ++ ".txt"
  let real_path := resolveComps [] (splitSlash summary_path.data)
  let real_script_dir := resolveComps [] (splitSlash script_dir.data)
  if ¬ real_script_dir.isPrefixOf real_path then Except.error ()
  else
    match w with
    | WriteOutcome.creationFailed => Except.ok fs
    | WriteOutcome.writeFailed partialContent =>
        Except.ok (fsSet fs tmp_name partialContent)
    | WriteOutcome.written =>
        let fs1 := fsSet fs tmp_name content
        if ok_replace then
          Except.ok (fsSet (fsRemove fs1 tmp_name) summary_path content)
        else Except.ok (fsRemove fs1 tmp_name)

/-! ## Pagination -/

/-- The `metadata` object of a listing page. -/
structure PageMeta where
  nextPage : Option String
deriving DecidableEq

/-- One listing page: its items (by name) and optional metadata (`none`
models both a missing and an empty `metadata` dict). -/
structure PageData where
  items : List String
  metadata : Option PageMeta
deriving DecidableEq

/-- Why `paginate_api` stopped. -/
inductive StopReason where
  | exhausted
  | cycleDetected
  | fetchFailed
  | emptyMetadata
deriving DecidableEq

/-- Observable outcome of `paginate_api`: the pages yielded, the stop
reason, the final `page_count` and the URLs actually fetched, in order. -/
structure PagOut where
  pages : List PageData
  reason : StopReason
  finalCount : Nat
  fetched : List String
deriving DecidableEq

/-- Loop of `paginate_api` (fetch_all_models.py, lines 279-317).  The
provider maps a URL to a page (`none` models a fetch or decode error).
The source guard `page_count < MAX_PAGES` is carried structurally as
`remaining = MAX_PAGES - page_count` (equivalent in `Nat`).  Before each
fetch the URL is checked against `seen_pages`; the next URL is
`metadata.nextPage` filtered through `validate_next_page_url`. -/
def pagLoop (provider : String → Option PageData) :
    Nat → Option String → List String → Nat → PagOut
  | _, none, _, page_count => ⟨[], StopReason.exhausted, page_count, []⟩
  | 0, some _, _, page_count => ⟨[], StopReason.exhausted, page_count, []⟩
  | r + 1, some url, seen, page_count =>
    if url ∈ seen then ⟨[], StopReason.cycleDetected, page_count, []⟩
    else
      match provider url with
      | none => ⟨[], StopReason.fetchFailed, page_count + 1, [url]⟩
      | some data =>
        match data.metadata with
        | none => ⟨[data], StopReason.emptyMetadata, page_count + 1, [url]⟩
        | some m =>
          let nxt := m.nextPage.bind validate_next_page_url
          let res := pagLoop provider r nxt (url :: seen) (page_count + 1)
          ⟨data :: res.pages, res.reason, res.finalCount, url :: res.fetched⟩

/-- `paginate_api(base_url, username, headers, safe_username)`: start from
the constructed listing URL with an empty `seen_pages` set and
`page_count = 0`.  The closing `if page_count >= MAX_PAGES` warning of the
source corresponds to `finalCount ≥ MAX_PAGES` on the result. -/
def paginate_api (provider : String → Option PageData) (base_url username : String) :
    PagOut :=
  pagLoop provider MAX_PAGES (some (paginate_api_initial_url base_url username)) [] 0

/-- The truncation-warning condition printed after the loop
(fetch_all_models.py, lines 315-317). -/
def paginate_api_warns (out : PagOut) : Bool :=
  MAX_PAGES ≤ out.finalCount

/-- Pagination loop of `process_username` (civitAI_Model_downloader.py,
lines 550-608): `while True`, break when `next_page` is `None` or when
both `metadata` and `items` are empty; `metadata.get('nextPage')` is
followed with no validation, no seen-set and no page cap.  `provider url =
none` models the persistent-request-failure path that calls `exit()`.
The function returns the fetched URLs when the loop halts within `fuel`
iterations and `none` when `fuel` is exhausted with the loop still
running. -/
def process_username_pages (provider : String → Option PageData) :
    Option String → Nat → Option (List String)
  | none, _ => some []
  | some _, 0 => none
  | some url, fuel + 1 =>
    match provider url with
    | none => some [url]
    | some data =>
      let nxt := data.metadata.bind PageMeta.nextPage
      if data.metadata = none ∧ data.items = [] then some [url]
      else
        match process_username_pages provider nxt fuel with
        | none => none
        | some rest => some (url :: rest)

/-! ## The aggregator `process_items` (fetch_all_models.py, lines 218-276) -/

/-- A file entry of a model version, as read by the aggregator. -/
structure ItemFile where
  name : String
  ftype : Option String
deriving DecidableEq

/-- A model version, as read by the aggregator. -/
structure AggVersion where
  files : List ItemFile
deriving DecidableEq

/-- A listing item, as read by the aggregator. -/
structure AggItem where
  name : String
  itype : Option String
  modelVersions : List AggVersion
deriving DecidableEq

/-- The name fixups of `search_for_training_data_files`: truncate to
`MAX_NAME_LENGTH`, and when the name contains a path separator or starts
with a dot, replace `/` and `\` by `_` and strip leading dots. -/
def sanitize_training_name (name0 : String) : String :=
  let name1 := if name0.length > MAX_NAME_LENGTH
    then String.mk (name0.data.take MAX_NAME_LENGTH) else name0
  if name1.data.contains '/' ∨ name1.data.contains '\\' ∨ strStartsWith name1 "." then
    String.mk (((name1.data.map (fun c => if c = '/' then '_' else c)).map
      (fun c => if c = '\\' then '_' else c)).dropWhile (fun c => c = '.'))
  else name1

/-- `search_for_training_data_files`: collect the (fixed-up, non-empty)
names of nested files whose provider type is literally `Training Data`. -/
def search_for_training_data_files (it : AggItem) : List String :=
  it.modelVersions.foldl (fun acc v =>
    v.files.foldl (fun acc2 f =>
      if f.ftype = some "Training Data" then
        let n := sanitize_training_name f.name
        if n ≠ "" then acc2 ++ [n] else acc2
      else acc2) acc) []

/-- The mutable aggregation state: the five `categorized_items` lists plus
`other_item_types`. -/
structure CatState where
  checkpoints : List String
  embeddings : List String
  lora : List String
  training_data : List String
  other : List String
  other_item_types : List (String × Option String)
deriving DecidableEq

/-- Indexing `categorized_items[category]`. -/
def catGet (st : CatState) : Category → List String
  | Category.Checkpoints => st.checkpoints
  | Category.Embeddings => st.embeddings
  | Category.Lora => st.lora
  | Category.Training_Data => st.training_data
  | Category.Other => st.other

/-- Updating `categorized_items[category]`. -/
def catSet (st : CatState) : Category → List String → CatState
  | Category.Checkpoints, l => { st with checkpoints := l }
  | Category.Embeddings, l => { st with embeddings := l }
  | Category.Lora, l => { st with lora := l }
  | Category.Training_Data, l => { st with training_data := l }
  | Category.Other, l => { st with other := l }

/-- The initial `categorized_items` dictionary (fetch_all_models.py,
lines 406-413). -/
def initial_categorized_items : CatState := ⟨[], [], [], [], [], []⟩

/-- The body of the `for item in items` loop of `process_items`: truncate
the name, categorize, skip the whole item when the category is at
`MAX_ITEMS_PER_CATEGORY`, append, fold nested training-data file names
into `Training_Data` up to the remaining capacity, and record `Other`
items with their raw type (also capped). -/
def process_one_item (st : CatState) (it : AggItem) : CatState :=
  let name := if it.name.length > MAX_NAME_LENGTH
    then String.mk (it.name.data.take MAX_NAME_LENGTH) else it.name
  let category := categorize_item it.itype
  if MAX_ITEMS_PER_CATEGORY ≤ (catGet st category).length then st
  else
    let st1 := catSet st category (catGet st category ++ [name])
    let training_data_files := search_for_training_data_files it
    let st2 :=
      if training_data_files ≠ [] then
        let current_count := (catGet st1 Category.Training_Data).length
        let remaining_capacity := MAX_ITEMS_PER_CATEGORY - current_count
        if remaining_capacity = 0 then st1
        else catSet st1 Category.Training_Data
          (catGet st1 Category.Training_Data ++ training_data_files.take remaining_capacity)
      else st1
    if category = Category.Other then
      if st2.other_item_types.length < MAX_ITEMS_PER_CATEGORY then
        { st2 with other_item_types := st2.other_item_types ++ [(name, it.itype)] }
      else st2
    else st2

/-- `process_items(items, categorized_items, other_item_types)`. -/
def process_items (items : List AggItem) (st : CatState) : CatState :=
  items.foldl process_one_item st

/-! ## Helper lemmas -/

theorem mem_stripChars {p : Char → Bool} {l : List Char} {c : Char}
    (h : c ∈ stripChars p l) : c ∈ l := by
  unfold stripChars at h
  rw [List.mem_reverse] at h
  have h2 := (List.dropWhile_sublist p).mem h
  rw [List.mem_reverse] at h2
  exact (List.dropWhile_sublist p).mem h2

theorem mem_collapseAux {c : Char} : ∀ {b : Bool} {l : List Char},
    c ∈ collapseAux b l → c ∈ l := by
  intro b l
  induction l generalizing b with
  | nil => intro h; exact absurd h (by simp [collapseAux])
  | cons x xs ih =>
    intro h
    unfold collapseAux at h
    by_cases hx : x = '_'
    · rw [if_pos hx] at h
      cases b with
      | true => exact List.mem_cons_of_mem x (ih h)
      | false =>
        rcases List.mem_cons.mp h with h1 | h1
        · exact h1 ▸ hx ▸ List.mem_cons_self x xs
        · exact List.mem_cons_of_mem x (ih h1)
    · rw [if_neg hx] at h
      rcases List.mem_cons.mp h with h1 | h1
      · exact h1 ▸ List.mem_cons_self x xs
      · exact List.mem_cons_of_mem x (ih h1)

theorem dropWhile_head_pred {p : Char → Bool} : ∀ {l : List Char} {x : Char} {xs : List Char},
    l.dropWhile p = x :: xs → p x = false := by
  intro l
  induction l with
  | nil => intro x xs h; exact absurd h (by simp)
  | cons y ys ih =>
    intro x xs h
    rw [List.dropWhile_cons] at h
    by_cases hy : p y
    · rw [if_pos hy] at h; exact ih h
    · rw [if_neg hy] at h
      cases h
      exact Bool.eq_false_iff.mpr hy

theorem splitLast_eq_none {l : List Char} {ch : Char} (h : splitLast l ch = none) :
    ch ∉ l := by
  unfold splitLast at h
  intro hmem
  rcases hd : l.reverse.dropWhile (fun x => x ≠ ch) with _ | ⟨y, ys⟩
  · rw [List.dropWhile_eq_nil_iff] at hd
    have := hd ch (List.mem_reverse.mpr hmem)
    simp at this
  · simp only [hd] at h
    exact absurd h (by simp)

theorem splitLast_spec {l a b : List Char} {ch : Char}
    (h : splitLast l ch = some (a, b)) : l = a ++ ch :: b ∧ ch ∉ b := by
  unfold splitLast at h
  rcases hd : l.reverse.dropWhile (fun x => x ≠ ch) with _ | ⟨y, ys⟩
  · simp only [hd] at h
    exact absurd h (by simp)
  · simp only [hd, Option.some.injEq, Prod.mk.injEq] at h
    obtain ⟨ha, hb⟩ := h
    have hy : y = ch := by
      have := dropWhile_head_pred hd
      simpa using this
    constructor
    · have hsplit : l.reverse.takeWhile (fun x => x ≠ ch) ++ (y :: ys) = l.reverse := by
        rw [← hd]; exact List.takeWhile_append_dropWhile _ _
      have : l = (l.reverse.takeWhile (fun x => x ≠ ch) ++ (y :: ys)).reverse := by
        rw [hsplit, List.reverse_reverse]
      rw [this, List.reverse_append, List.reverse_cons]
      rw [← ha, ← hb, hy]
      simp
    · intro hmem
      rw [← hb, List.mem_reverse] at hmem
      have := List.mem_takeWhile_imp hmem
      simp at this

theorem splitext_no_slash (l : List Char) : '/' ∉ (splitext l).2 := by
  unfold splitext
  rcases hp : splitLast l '/' with _ | ⟨a, b⟩ <;> simp only
  · rcases hq : splitLast l '.' with _ | ⟨pre, post⟩ <;> simp only
    · simp
    · by_cases hall : pre.all (fun c => c = '.')
      · rw [if_pos hall]; simp
      · rw [if_neg hall]
        intro hmem
        rcases List.mem_cons.mp hmem with h1 | h1
        · exact absurd h1 (by decide)
        · have hq2 := splitLast_spec hq
          have : '/' ∈ l := by
            rw [hq2.1]
            exact List.mem_append_right _ (List.mem_cons_of_mem _ h1)
          exact splitLast_eq_none hp this
  · rcases hq : splitLast b '.' with _ | ⟨pre, post⟩ <;> simp only
    · simp
    · by_cases hall : pre.all (fun c => c = '.')
      · rw [if_pos hall]; simp
      · rw [if_neg hall]
        intro hmem
        rcases List.mem_cons.mp hmem with h1 | h1
        · exact absurd h1 (by decide)
        · have hq2 := splitLast_spec hq
          have hb : '/' ∈ b := by
            rw [hq2.1]
            exact List.mem_append_right _ (List.mem_cons_of_mem _ h1)
          exact (splitLast_spec hp).2 hb

theorem splitSlash_no_slash : ∀ {l : List Char}, '/' ∉ l → splitSlash l = [l] := by
  intro l
  induction l with
  | nil => intro _; rfl
  | cons c cs ih =>
    intro h
    have hc : c ≠ '/' := fun hc => h (hc ▸ List.mem_cons_self c cs)
    have hcs : '/' ∉ cs := fun hm => h (List.mem_cons_of_mem c hm)
    unfold splitSlash
    rw [ih hcs]
    simp [hc]

theorem resolveComps_single {root : List (List Char)} {p : List Char}
    (h1 : p ≠ []) (h2 : p ≠ ['.']) (h3 : p ≠ ['.', '.']) :
    resolveComps root [p] = root ++ [p] := by
  unfold resolveComps
  rw [if_neg (by simp [h1, h2]), if_neg h3]
  rfl

theorem map_sanitary_no_slash (b : List Char) :
    '/' ∉ b.map (fun c => if isDisallowedChar c then '_' else c) := by
  intro h
  rcases List.mem_map.mp h with ⟨c, _, hc⟩
  by_cases hd : isDisallowedChar c
  · rw [if_pos hd] at hc; exact absurd hc (by decide)
  · rw [if_neg hd] at hc
    rw [hc] at hd
    exact hd (by decide)

theorem sanitize_name_no_slash (s : String) :
    '/' ∉ (sanitize_name s none MAX_PATH_LENGTH none none none).data := by
  unfold sanitize_name
  rw [if_neg (by simp [optTruthy])]
  dsimp only [optTruthy]
  intro hmem
  have h1 := mem_stripChars hmem
  rcases List.mem_append.mp h1 with h2 | h2
  · have h3 := mem_stripChars h2
    have h4 := mem_collapseAux h3
    simp only [Bool.false_eq_true, if_false] at h4
    by_cases hres : String.mk (((splitext s.data).1.map
        (fun c => if isDisallowedChar c then '_' else c)).map Char.toUpper) ∈ WINDOWS_RESERVED_NAMES
    · rw [if_pos hres] at h4
      exact absurd (List.mem_singleton.mp h4) (by decide)
    · rw [if_neg hres] at h4
      exact map_sanitary_no_slash _ h4
  · exact splitext_no_slash s.data h2

theorem reserved_short : ∀ x ∈ WINDOWS_RESERVED_NAMES, x.data.length ≤ 4 := by decide

theorem username_final_facts (safe2 : List Char)
    (hchars : ∀ c ∈ safe2, usernameAllowedChar c = true)
    (hne : safe2 ≠ [])
    (hres : String.mk (safe2.map Char.toUpper) ∉ WINDOWS_RESERVED_NAMES) :
    (if safe2.length > 64 then safe2.take 64 else safe2) ≠ [] ∧
    (∀ c ∈ (if safe2.length > 64 then safe2.take 64 else safe2), usernameAllowedChar c = true) ∧
    String.mk ((if safe2.length > 64 then safe2.take 64 else safe2).map Char.toUpper) ∉
      WINDOWS_RESERVED_NAMES := by
  by_cases hl : safe2.length > 64
  · rw [if_pos hl]
    refine ⟨?_, ?_, ?_⟩
    · intro hnil
      have := congrArg List.length hnil
      rw [List.length_take] at this
      simp only [List.length_nil] at this
      omega
    · intro c hc
      exact hchars c (List.mem_of_mem_take hc)
    · intro hmem
      have hlen := reserved_short _ hmem
      have hl2 : ((safe2.take 64).map Char.toUpper).length = 64 := by
        rw [List.length_map, List.length_take]
        omega
      rw [hl2] at hlen
      omega
  · rw [if_neg hl]
    exact ⟨hne, hchars, hres⟩

theorem username_map_allowed (s : String) :
    ∀ c ∈ s.data.map (fun c => if usernameAllowedChar c then c else '_'),
      usernameAllowedChar c = true := by
  intro c hc
  rcases List.mem_map.mp hc with ⟨d, _, hd⟩
  by_cases ha : usernameAllowedChar d
  · rw [if_pos ha] at hd; exact hd ▸ ha
  · rw [if_neg ha] at hd; rw [← hd]; decide

theorem sanitize_username_ok {s r : String} (h : sanitize_username s = Except.ok r) :
    r.data ≠ [] ∧ (∀ c ∈ r.data, usernameAllowedChar c = true) ∧
      String.mk (r.data.map Char.toUpper) ∉ WINDOWS_RESERVED_NAMES := by
  unfold sanitize_username at h
  by_cases h0 : s = ""
  · rw [if_pos h0] at h; exact absurd h (by simp)
  rw [if_neg h0] at h
  dsimp only at h
  set safe1 := stripChars (fun c => c = '_' ∨ c = '.')
    (s.data.map (fun c => if usernameAllowedChar c then c else '_')) with hsafe1
  by_cases h1 : safe1 = []
  · rw [if_pos h1] at h; exact absurd h (by simp)
  rw [if_neg h1] at h
  by_cases h2 : stripChars (fun c => c = '_' ∨ c = '-') safe1 = []
  · rw [if_pos h2] at h; exact absurd h (by simp)
  rw [if_neg h2] at h
  have hchars1 : ∀ c ∈ safe1, usernameAllowedChar c = true := by
    intro c hc
    exact username_map_allowed s c (mem_stripChars (hsafe1 ▸ hc))
  by_cases h3 : safe1.all Char.isDigit
  · rw [if_pos h3] at h
    by_cases h4 : String.mk (("user_".data ++ safe1).map Char.toUpper) ∈ WINDOWS_RESERVED_NAMES
    · rw [if_pos h4] at h; exact absurd h (by simp)
    rw [if_neg h4] at h
    simp only [Except.ok.injEq] at h
    rw [← h]
    refine username_final_facts ("user_".data ++ safe1) ?_ (by simp) h4
    intro c hc
    rcases List.mem_append.mp hc with hc1 | hc1
    · have hc2 : c = 'u' ∨ c = 's' ∨ c = 'e' ∨ c = 'r' ∨ c = '_' := by simpa using hc1
      rcases hc2 with h5 | h5 | h5 | h5 | h5 <;> rw [h5] <;> decide
    · exact hchars1 c hc1
  · rw [if_neg h3] at h
    by_cases h4 : String.mk (safe1.map Char.toUpper) ∈ WINDOWS_RESERVED_NAMES
    · rw [if_pos h4] at h; exact absurd h (by simp)
    rw [if_neg h4] at h
    simp only [Except.ok.injEq] at h
    rw [← h]
    exact username_final_facts safe1 hchars1 h1 h4

/-! ## Claim C1 -/

/-- C1 counterexample: the claim states that every raw string sanitizes to
a segment that stays at or below the output root and never collides with a
Windows reserved device name.  Both parts fail on `sanitize_name`: the
input `" .. /"` sanitizes to `".."`, which joined under the root resolves
to the root's parent (no rest of components can make it the root or a
descendant), and the input `"_CON_"` sanitizes to the reserved name
`"CON"` because the reserved-name check runs before underscores are
stripped. -/
theorem c1_path_safety_counterexample :
    sanitize_name " .. /" none MAX_PATH_LENGTH none none none = ".." ∧
    (¬ ∃ rest, joinResolve ["model_downloads".data]
      (sanitize_name " .. /" none MAX_PATH_LENGTH none none none) =
      ["model_downloads".data] ++ rest) ∧
    sanitize_name "_CON_" none MAX_PATH_LENGTH none none none = "CON" ∧
    "CON" ∈ WINDOWS_RESERVED_NAMES := by
  refine ⟨by decide, ?_, by decide, by decide⟩
  intro ⟨rest, hr⟩
  rw [show joinResolve ["model_downloads".data]
      (sanitize_name " .. /" none MAX_PATH_LENGTH none none none) = [] from by decide] at hr
  exact absurd (congrArg List.length hr) (by simp)

/-- C1 (amended): `sanitize_username`, when it succeeds, yields a nonempty
segment over `[A-Za-z0-9_-]` that is never a Windows reserved device name
and, joined under any root, resolves to a strict descendant of that root;
`sanitize_name` guarantees only that its result contains no path
separator — it can still resolve above the root (`sanitize_name " .. /" =
".."`) and can still equal a reserved device name (`sanitize_name "_CON_"
= "CON"`). -/
theorem c1_path_safety_amended :
    (∀ (s r : String) (root : List (List Char)), sanitize_username s = Except.ok r →
      joinResolve root r = root ++ [r.data] ∧ root ++ [r.data] ≠ root ∧
      String.mk (r.data.map Char.toUpper) ∉ WINDOWS_RESERVED_NAMES) ∧
    (∀ s : String, '/' ∉ (sanitize_name s none MAX_PATH_LENGTH none none none).data) := by
  constructor
  · intro s r root h
    obtain ⟨hne, hchars, hres⟩ := sanitize_username_ok h
    have hslash : '/' ∉ r.data := fun hm => by
      have := hchars '/' hm
      exact absurd this (by decide)
    have hdot : '.' ∉ r.data := fun hm => by
      have := hchars '.' hm
      exact absurd this (by decide)
    have hr1 : r.data ≠ ['.'] := fun he => hdot (he ▸ List.mem_cons_self _ _)
    have hr2 : r.data ≠ ['.', '.'] := fun he => hdot (he ▸ List.mem_cons_self _ _)
    refine ⟨?_, ?_, hres⟩
    · unfold joinResolve
      rw [splitSlash_no_slash hslash]
      exact resolveComps_single hne hr1 hr2
    · intro he
      have := congrArg List.length he
      simp at this
  · intro s
    exact sanitize_name_no_slash s

/-- C1 amended, witnessed at the concrete input `"ab?c"`, which sanitizes
to the username segment `"ab_c"`. -/
theorem c1_path_safety_amended_witness :
    joinResolve ["model_downloads".data] "ab_c" =
      ["model_downloads".data] ++ ["ab_c".data] ∧
    ["model_downloads".data] ++ ["ab_c".data] ≠ ["model_downloads".data] ∧
    String.mk ("ab_c".data.map Char.toUpper) ∉ WINDOWS_RESERVED_NAMES :=
  c1_path_safety_amended.1 "ab?c" "ab_c" ["model_downloads".data] (by rfl)

/-! ## Claim C10 -/

/-- C10: when the stem of `name` (the name minus its extension) equals the
non-empty `folder_name` argument, `sanitize_name` returns the input
unchanged, skipping every sanitization rule. -/
theorem c10_folder_name_bypass (name folder : String) (max_length : Nat)
    (subfolder output_dir username : Option String)
    (hfold : folder ≠ "") (hstem : String.mk (splitext name.data).1 = folder) :
    sanitize_name name (some folder) max_length subfolder output_dir username = name := by
  unfold sanitize_name
  dsimp only
  rw [if_pos ⟨by simp [optTruthy, hfold], by simpa using hstem⟩]

/-- C10 witnessed at `name = "a<b.txt"`, `folder_name = "a<b"`: the `<`
would normally be replaced by `_`, but the raw name is returned. -/
theorem c10_folder_name_bypass_witness :
    sanitize_name "a<b.txt" (some "a<b") MAX_PATH_LENGTH none none none = "a<b.txt" :=
  c10_folder_name_bypass "a<b.txt" "a<b" MAX_PATH_LENGTH none none none
    (by decide) (by decide)

/-! ## Claim C7 -/

/-- C7: the file-level classifier of `download_model_files` agrees with the
spec's decision table on every item type (present or missing) and every
file name. -/
theorem c7_file_classifier_table (t : Option String) (fn : String) :
    classify_file t fn = classify_table t fn := by
  unfold classify_file classify_table
  cases t with
  | none => simp
  | some s => simp

/-! ## Claim C8 -/

theorem get_best_singleton (ht e : String) :
    get_best_hash_for_verification [(ht, e)] =
      if ht = "BLAKE3" then some ("BLAKE3", e)
      else if ht = "CRC32" then some ("CRC32", e)
      else if ht = "SHA256" then some ("SHA256", e) else none := by
  unfold get_best_hash_for_verification dictLookup
  by_cases h1 : ht = "BLAKE3" <;> by_cases h2 : ht = "CRC32" <;>
    by_cases h3 : ht = "SHA256" <;> simp_all [dictLookup]

theorem verify_expected_hash_case (path : String) (content : Option (List Nat))
    (kb : Option Nat) (ht e1 e2 : String) (hashFn : String → List Nat → Option String)
    (h : String.mk (e1.data.map Char.toUpper) = String.mk (e2.data.map Char.toUpper)) :
    verify_file_integrity path content kb [(ht, e1)] true hashFn =
    verify_file_integrity path content kb [(ht, e2)] true hashFn := by
  unfold verify_file_integrity
  cases content with
  | none => rfl
  | some bytes =>
    dsimp only
    rw [get_best_singleton, get_best_singleton]
    simp only [ne_eq, reduceCtorEq, not_false_eq_true, and_true, true_and]
    by_cases h1 : ht = "BLAKE3"
    · simp only [if_pos h1]
      rw [h]
    · by_cases h2 : ht = "CRC32"
      · simp only [if_neg h1, if_pos h2]
        rw [h]
      · by_cases h3 : ht = "SHA256"
        · simp only [if_neg h1, if_neg h2, if_pos h3]
          rw [h]
        · simp only [if_neg h1, if_neg h2, if_neg h3]

/-- A concrete hash oracle used to witness the verifier lemmas (its value
is irrelevant: `calculate_file_hash` is abstracted as a parameter). -/
def noHashFn : String → List Nat → Option String := fun _ _ => none

/-- C8: `get_best_hash_for_verification` walks the fixed priority order
BLAKE3, then CRC32, then SHA256 (in particular a dictionary holding
exactly SHA256 and CRC32 selects CRC32), and `verify_file_integrity`
compares the expected hash case-insensitively: its verdict is unchanged
when the expected value is replaced by any string with the same
upper-casing. -/
theorem c8_hash_priority :
    (∀ (d : List (String × String)) (v : String), dictLookup "BLAKE3" d = some v →
      get_best_hash_for_verification d = some ("BLAKE3", v)) ∧
    (∀ (d : List (String × String)) (v : String), dictLookup "BLAKE3" d = none →
      dictLookup "CRC32" d = some v →
      get_best_hash_for_verification d = some ("CRC32", v)) ∧
    (∀ (d : List (String × String)) (v : String), dictLookup "BLAKE3" d = none →
      dictLookup "CRC32" d = none → dictLookup "SHA256" d = some v →
      get_best_hash_for_verification d = some ("SHA256", v)) ∧
    get_best_hash_for_verification [("SHA256", "X"), ("CRC32", "Y")] = some ("CRC32", "Y") ∧
    (∀ (path : String) (content : Option (List Nat)) (kb : Option Nat)
      (ht e1 e2 : String) (hashFn : String → List Nat → Option String),
      String.mk (e1.data.map Char.toUpper) = String.mk (e2.data.map Char.toUpper) →
      verify_file_integrity path content kb [(ht, e1)] true hashFn =
      verify_file_integrity path content kb [(ht, e2)] true hashFn) := by
  refine ⟨?_, ?_, ?_, by decide, verify_expected_hash_case⟩
  · intro d v h
    have hd : d ≠ [] := by rintro rfl; simp [dictLookup] at h
    unfold get_best_hash_for_verification
    rw [if_neg hd, h]
  · intro d v h1 h2
    have hd : d ≠ [] := by rintro rfl; simp [dictLookup] at h2
    unfold get_best_hash_for_verification
    rw [if_neg hd, h1, h2]
  · intro d v h1 h2 h3
    have hd : d ≠ [] := by rintro rfl; simp [dictLookup] at h3
    unfold get_best_hash_for_verification
    rw [if_neg hd, h1, h2, h3]

/-- C8 witnessed on concrete dictionaries (BLAKE3 beats SHA256, CRC32
beats SHA256, SHA256 as fallback) and on a concrete case-changed expected
hash. -/
theorem c8_hash_priority_witness :
    get_best_hash_for_verification [("BLAKE3", "aa"), ("SHA256", "bb")] =
      some ("BLAKE3", "aa") ∧
    get_best_hash_for_verification [("SHA256", "X"), ("CRC32", "Y")] =
      some ("CRC32", "Y") ∧
    get_best_hash_for_verification [("SHA256", "zz")] = some ("SHA256", "zz") ∧
    verify_file_integrity "f" (some [1, 2]) none [("CRC32", "9ae0daaf")] true noHashFn =
      verify_file_integrity "f" (some [1, 2]) none [("CRC32", "9AE0DAAF")] true noHashFn :=
  ⟨c8_hash_priority.1 _ "aa" rfl,
   c8_hash_priority.2.1 _ "Y" rfl rfl,
   c8_hash_priority.2.2.1 _ "zz" rfl rfl rfl,
   c8_hash_priority.2.2.2.2 "f" (some [1, 2]) none "CRC32" "9ae0daaf" "9AE0DAAF"
     noHashFn (by decide)⟩
theorem catGet_catSet (st : CatState) (c c' : Category) (l : List String) :
    catGet (catSet st c l) c' = if c' = c then l else catGet st c' := by
  cases c <;> cases c' <;> simp [catGet, catSet]

theorem catGet_other_update (st : CatState) (o : List (String × Option String))
    (c : Category) :
    catGet { st with other_item_types := o } c = catGet st c := by
  cases c <;> rfl

theorem catGet_other_stage (st2 : CatState) (cat : Category) (name : String)
    (ity : Option String) (c : Category) :
    catGet (if cat = Category.Other then
        (if st2.other_item_types.length < MAX_ITEMS_PER_CATEGORY then
          { st2 with other_item_types := st2.other_item_types ++ [(name, ity)] } else st2)
      else st2) c = catGet st2 c := by
  by_cases h1 : cat = Category.Other
  · rw [if_pos h1]
    by_cases h2 : st2.other_item_types.length < MAX_ITEMS_PER_CATEGORY
    · rw [if_pos h2]; exact catGet_other_update st2 _ c
    · rw [if_neg h2]
  · rw [if_neg h1]

theorem process_one_item_spec (st : CatState) (it : AggItem) (c : Category) :
    (∃ t, catGet st c ++ t = catGet (process_one_item st it) c) ∧
    (catGet (process_one_item st it) c).length ≤
      max (catGet st c).length MAX_ITEMS_PER_CATEGORY := by
  unfold process_one_item
  set name := if it.name.length > MAX_NAME_LENGTH
    then String.mk (it.name.data.take MAX_NAME_LENGTH) else it.name with hname
  set cat := categorize_item it.itype with hcat
  by_cases hfull : MAX_ITEMS_PER_CATEGORY ≤ (catGet st cat).length
  · rw [if_pos hfull]
    exact ⟨⟨[], by simp⟩, Nat.le_max_left _ _⟩
  rw [if_neg hfull]
  dsimp only
  set st1 := catSet st cat (catGet st cat ++ [name]) with hst1
  have hst1get : ∀ c', catGet st1 c' =
      if c' = cat then catGet st cat ++ [name] else catGet st c' :=
    fun c' => catGet_catSet st cat c' _
  have hfrom1 : ∀ c', (∃ t, catGet st c' ++ t = catGet st1 c') ∧
      (catGet st1 c').length ≤ max (catGet st c').length MAX_ITEMS_PER_CATEGORY := by
    intro c'
    rw [hst1get c']
    by_cases hc : c' = cat
    · rw [if_pos hc]
      refine ⟨⟨[name], by rw [hc]⟩, ?_⟩
      rw [List.length_append, hc]
      simp only [List.length_singleton]
      omega
    · rw [if_neg hc]
      exact ⟨⟨[], by simp⟩, Nat.le_max_left _ _⟩
  set tfiles := search_for_training_data_files it with htf
  by_cases htfe : tfiles ≠ []
  · rw [if_pos htfe]
    by_cases hrem : MAX_ITEMS_PER_CATEGORY - (catGet st1 Category.Training_Data).length = 0
    · rw [if_pos hrem]
      rw [catGet_other_stage]
      exact hfrom1 c
    · rw [if_neg hrem]
      rw [catGet_other_stage]
      rw [catGet_catSet]
      by_cases hc : c = Category.Training_Data
      · rw [if_pos hc]
        obtain ⟨⟨t1, ht1⟩, hlen1⟩ := hfrom1 Category.Training_Data
        constructor
        · exact ⟨t1 ++ tfiles.take (MAX_ITEMS_PER_CATEGORY -
            (catGet st1 Category.Training_Data).length), by
              rw [hc, ← List.append_assoc, ht1]⟩
        · rw [List.length_append, List.length_take, hc]
          omega
      · rw [if_neg hc]
        exact hfrom1 c
  · rw [if_neg htfe]
    rw [catGet_other_stage]
    exact hfrom1 c

theorem process_items_spec (items : List AggItem) (st : CatState) (c : Category) :
    (∃ t, catGet st c ++ t = catGet (process_items items st) c) ∧
    (catGet (process_items items st) c).length ≤
      max (catGet st c).length MAX_ITEMS_PER_CATEGORY := by
  induction items generalizing st with
  | nil => exact ⟨⟨[], by simp [process_items]⟩, Nat.le_max_left _ _⟩
  | cons it rest ih =>
    have h1 := process_one_item_spec st it c
    have h2 := ih (process_one_item st it)
    rw [show process_items (it :: rest) st = process_items rest (process_one_item st it)
      from rfl]
    obtain ⟨⟨t1, ht1⟩, hl1⟩ := h1
    obtain ⟨⟨t2, ht2⟩, hl2⟩ := h2
    refine ⟨⟨t1 ++ t2, by rw [← List.append_assoc, ht1, ht2]⟩, ?_⟩
    omega

/-! ## Claim C9 -/

/-- C9: starting from any state in which every category holds at most
`MAX_ITEMS_PER_CATEGORY` names (30,000), after `process_items` every
category still holds at most that many names — items and nested
training-data files beyond the cap are dropped (the function is total, so
they are dropped without an error) — and the names already recorded are
retained as a prefix of the final list. -/
theorem c9_category_cap (items : List AggItem) (st : CatState)
    (hcap : ∀ c : Category, (catGet st c).length ≤ MAX_ITEMS_PER_CATEGORY) :
    ∀ c : Category, (catGet (process_items items st) c).length ≤ MAX_ITEMS_PER_CATEGORY ∧
      ∃ t, catGet st c ++ t = catGet (process_items items st) c := by
  intro c
  obtain ⟨hpre, hlen⟩ := process_items_spec items st c
  exact ⟨by have := hcap c; omega, hpre⟩

/-- C9 witnessed on a one-item run from the initial empty state. -/
theorem c9_category_cap_witness :
    (catGet (process_items [⟨"a", some "LORA", []⟩] initial_categorized_items)
      Category.Lora).length ≤ MAX_ITEMS_PER_CATEGORY ∧
    ∃ t, catGet initial_categorized_items Category.Lora ++ t =
      catGet (process_items [⟨"a", some "LORA", []⟩] initial_categorized_items)
        Category.Lora :=
  c9_category_cap [⟨"a", some "LORA", []⟩] initial_categorized_items
    (fun c => by cases c <;> decide) Category.Lora
theorem pagLoop_fetched_le (provider : String → Option PageData) :
    ∀ (remaining : Nat) (np : Option String) (seen : List String) (pc : Nat),
      (pagLoop provider remaining np seen pc).fetched.length ≤ remaining := by
  intro remaining
  induction remaining with
  | zero => intro np seen pc; cases np <;> simp [pagLoop]
  | succ r ih =>
    intro np seen pc
    cases np with
    | none => simp [pagLoop]
    | some url =>
      unfold pagLoop
      by_cases hs : url ∈ seen
      · rw [if_pos hs]; simp
      rw [if_neg hs]
      rcases hp : provider url with _ | data
      · simp
      rcases hm : data.metadata with _ | m
      · simp [hm]
      simp only [hm]
      simp only [List.length_cons]
      have := ih (m.nextPage.bind validate_next_page_url) (url :: seen) (pc + 1)
      omega

theorem pagLoop_finalCount (provider : String → Option PageData) :
    ∀ (remaining : Nat) (np : Option String) (seen : List String) (pc : Nat),
      (pagLoop provider remaining np seen pc).finalCount =
        pc + (pagLoop provider remaining np seen pc).fetched.length := by
  intro remaining
  induction remaining with
  | zero => intro np seen pc; cases np <;> simp [pagLoop]
  | succ r ih =>
    intro np seen pc
    cases np with
    | none => simp [pagLoop]
    | some url =>
      unfold pagLoop
      by_cases hs : url ∈ seen
      · rw [if_pos hs]; simp
      rw [if_neg hs]
      rcases hp : provider url with _ | data
      · simp
      rcases hm : data.metadata with _ | m
      · simp [hm]
      simp only [hm]
      simp only [List.length_cons]
      have := ih (m.nextPage.bind validate_next_page_url) (url :: seen) (pc + 1)
      omega

theorem validate_next_page_url_some {r u : String}
    (h : validate_next_page_url r = some u) :
    u = r ∧ (urlsplit u).scheme = "https" ∧ (urlsplit u).netloc ∈ ALLOWED_API_HOSTS ∧
      strStartsWith (urlsplit u).path "/api/" = true := by
  unfold validate_next_page_url at h
  by_cases h1 : r = ""
  · rw [if_pos h1] at h; exact absurd h (by simp)
  rw [if_neg h1] at h
  dsimp only at h
  by_cases h2 : (urlsplit r).scheme ≠ "https"
  · rw [if_pos h2] at h; exact absurd h (by simp)
  rw [if_neg h2] at h
  by_cases h3 : (urlsplit r).netloc ∉ ALLOWED_API_HOSTS
  · rw [if_pos h3] at h; exact absurd h (by simp)
  rw [if_neg h3] at h
  by_cases h4 : ¬ strStartsWith (urlsplit r).path "/api/" = true
  · rw [if_pos h4] at h; exact absurd h (by simp)
  rw [if_neg h4] at h
  simp only [Option.some.injEq] at h
  subst h
  exact ⟨rfl, not_not.mp h2, not_not.mp h3, not_not.mp h4⟩

theorem pagLoop_fetch_validated (provider : String → Option PageData) :
    ∀ (remaining : Nat) (np : Option String) (seen : List String) (pc : Nat) (u : String),
      u ∈ (pagLoop provider remaining np seen pc).fetched →
      np = some u ∨ validate_next_page_url u = some u := by
  intro remaining
  induction remaining with
  | zero =>
    intro np seen pc u hu
    cases np <;> simp [pagLoop] at hu
  | succ r ih =>
    intro np seen pc u hu
    cases np with
    | none => simp [pagLoop] at hu
    | some url =>
      unfold pagLoop at hu
      by_cases hs : url ∈ seen
      · rw [if_pos hs] at hu
        simp at hu
      rw [if_neg hs] at hu
      rcases hp : provider url with _ | data <;> simp only [hp] at hu
      · simp at hu
        exact Or.inl (by rw [hu])
      rcases hm : data.metadata with _ | m <;> simp only [hm] at hu
      · simp at hu
        exact Or.inl (by rw [hu])
      rcases List.mem_cons.mp hu with h1 | h1
      · exact Or.inl (by rw [h1])
      · rcases ih (m.nextPage.bind validate_next_page_url) (url :: seen) (pc + 1) u h1 with
          h2 | h2
        · rcases Option.bind_eq_some.mp h2 with ⟨raw, _, hval⟩
          have he := (validate_next_page_url_some hval).1
          rw [← he] at hval
          exact Or.inr hval
        · exact Or.inr h2

/-! ## Claim C3 -/

/-- A provider serving the cyclic page sequence A, B, A, B, … to the
downloader's pagination loop. -/
def cycPageProvider : String → Option PageData := fun u =>
  if u = "A" then some ⟨["x"], some ⟨some "B"⟩⟩ else some ⟨["y"], some ⟨some "A"⟩⟩

theorem cycPageProvider_no_halt : ∀ (fuel : Nat) (next : Option String),
    (next = some "A" ∨ next = some "B") →
    process_username_pages cycPageProvider next fuel = none := by
  intro fuel
  induction fuel with
  | zero => rintro next (rfl | rfl) <;> rfl
  | succ n ih =>
    rintro next (rfl | rfl) <;>
      simp [process_username_pages, cycPageProvider, ih (some "A") (Or.inl rfl),
        ih (some "B") (Or.inr rfl)]

/-- C3 counterexample: the claim covers "the pagination loop", whose cited
sources include `process_username` in the downloader.  That loop has no
seen-set and no page cap: served the cyclic page sequence A, B, A, …, it is
still fetching after 1001 iterations (`none` means the loop did not halt
within the given iteration budget), contradicting both "stops as soon as a
page URL repeats" and "stops unconditionally after fetching at most 1000
pages". -/
theorem c3_pagination_counterexample :
    process_username_pages cycPageProvider (some "A") 1001 = none :=
  cycPageProvider_no_halt 1001 (some "A") (Or.inl rfl)

/-- A provider serving the cyclic page sequence A, B, A with
validation-passing CivitAI URLs, for `paginate_api`. -/
def cycApiProvider : String → Option PageData := fun u =>
  if u = "https://civitai.com/api/a" then
    some ⟨["x"], some ⟨some "https://civitai.com/api/b"⟩⟩
  else if u = "https://civitai.com/api/b" then
    some ⟨["y"], some ⟨some "https://civitai.com/api/a"⟩⟩
  else none

/-- C3 (amended): the pagination loop of `fetch_all_models.paginate_api`
terminates as the claim says — it fetches at most 1000 pages, it halts on
the page sequence A, B, A at the second occurrence of A without fetching A
again (reporting a detected cycle), and the truncation warning fires
exactly when the page budget was used up — but the claim is false of the
downloader's `process_username` loop, which has no such protection (see
the counterexample). -/
theorem c3_pagination_amended :
    (∀ (provider : String → Option PageData) (base username : String),
      (paginate_api provider base username).fetched.length ≤ MAX_PAGES) ∧
    (pagLoop cycApiProvider MAX_PAGES (some "https://civitai.com/api/a") [] 0 =
      ⟨[⟨["x"], some ⟨some "https://civitai.com/api/b"⟩⟩,
        ⟨["y"], some ⟨some "https://civitai.com/api/a"⟩⟩],
       StopReason.cycleDetected, 2,
       ["https://civitai.com/api/a", "https://civitai.com/api/b"]⟩) ∧
    (∀ (provider : String → Option PageData) (base username : String),
      paginate_api_warns (paginate_api provider base username) = true ↔
      (paginate_api provider base username).fetched.length = MAX_PAGES) := by
  refine ⟨?_, by decide, ?_⟩
  · intro provider base username
    exact pagLoop_fetched_le provider MAX_PAGES _ [] 0
  · intro provider base username
    unfold paginate_api_warns
    rw [decide_eq_true_eq]
    unfold paginate_api
    rw [pagLoop_finalCount]
    have := pagLoop_fetched_le provider MAX_PAGES
      (some (paginate_api_initial_url base username)) [] 0
    omega

/-- C3 amended, witnessed on the concrete cyclic provider. -/
theorem c3_pagination_amended_witness :
    (paginate_api cycApiProvider "https://civitai.com/api/v1/models" "u").fetched.length ≤
      MAX_PAGES :=
  c3_pagination_amended.1 cycApiProvider "https://civitai.com/api/v1/models" "u"

/-! ## Claim C6 -/

/-- A provider whose first page points the downloader at a non-HTTPS,
non-allow-listed `nextPage` URL. -/
def evilNextProvider : String → Option PageData := fun u =>
  if u = "https://civitai.com/api/v1/models?username=u&nsfw=true" then
    some ⟨["x"], some ⟨some "http://evil.example/steal"⟩⟩
  else some ⟨[], none⟩

/-- C6 counterexample: the claim covers "the pagination loop", whose cited
sources include `process_username` in the downloader.  That loop performs
no validation of `metadata.nextPage`: it issues a fetch to
`http://evil.example/steal`, a URL that `validate_next_page_url` rejects
(wrong scheme and host), instead of stopping. -/
theorem c6_next_page_validation_counterexample :
    process_username_pages evilNextProvider
      (some "https://civitai.com/api/v1/models?username=u&nsfw=true") 10 =
      some ["https://civitai.com/api/v1/models?username=u&nsfw=true",
            "http://evil.example/steal"] ∧
    validate_next_page_url "http://evil.example/steal" = none :=
  ⟨by decide, by decide⟩

/-- C6 (amended): in `fetch_all_models.paginate_api` the claim holds: a
URL accepted by `validate_next_page_url` is returned unchanged and is
HTTPS with an allow-listed host and an `/api/`-prefixed path; every URL
the loop fetches is either the initial constructed listing URL or one that
passed this validation; and a `none` next pointer (which is what a failed
validation produces) stops the loop with nothing further fetched.  The
downloader's `process_username` loop performs no such validation (see the
counterexample). -/
theorem c6_next_page_validation_amended :
    (∀ r u : String, validate_next_page_url r = some u →
      u = r ∧ (urlsplit u).scheme = "https" ∧ (urlsplit u).netloc ∈ ALLOWED_API_HOSTS ∧
      strStartsWith (urlsplit u).path "/api/" = true) ∧
    (∀ (provider : String → Option PageData) (base username u : String),
      u ∈ (paginate_api provider base username).fetched →
      u = paginate_api_initial_url base username ∨ validate_next_page_url u = some u) ∧
    (∀ (provider : String → Option PageData) (remaining : Nat)
      (seen : List String) (pc : Nat),
      pagLoop provider remaining none seen pc = ⟨[], StopReason.exhausted, pc, []⟩) := by
  refine ⟨fun r u h => validate_next_page_url_some h, ?_, ?_⟩
  · intro provider base username u hu
    rcases pagLoop_fetch_validated provider MAX_PAGES
      (some (paginate_api_initial_url base username)) [] 0 u hu with h | h
    · exact Or.inl (by injection h.symm)
    · exact Or.inr h
  · intro provider remaining seen pc
    cases remaining <;> rfl

/-- C6 amended, witnessed on a concrete validated URL and a concrete
pagination run. -/
theorem c6_next_page_validation_amended_witness :
    (("https://civitai.com/api/v1/models?page=2" : String) =
      "https://civitai.com/api/v1/models?page=2" ∧
    (urlsplit "https://civitai.com/api/v1/models?page=2").scheme = "https" ∧
    (urlsplit "https://civitai.com/api/v1/models?page=2").netloc ∈ ALLOWED_API_HOSTS ∧
    strStartsWith (urlsplit "https://civitai.com/api/v1/models?page=2").path "/api/" = true) ∧
    ("https://civitai.com/api/v1/models?username=u&nsfw=true" =
      paginate_api_initial_url "https://civitai.com/api/v1/models" "u" ∨
    validate_next_page_url "https://civitai.com/api/v1/models?username=u&nsfw=true" =
      some "https://civitai.com/api/v1/models?username=u&nsfw=true") :=
  ⟨c6_next_page_validation_amended.1 "https://civitai.com/api/v1/models?page=2"
    "https://civitai.com/api/v1/models?page=2" (by decide),
   c6_next_page_validation_amended.2.1 cycApiProvider "https://civitai.com/api/v1/models"
    "u" "https://civitai.com/api/v1/models?username=u&nsfw=true" (by decide)⟩
theorem toLower_eq_qmark (c : Char) (h : Char.toLower c = '?') : c = '?' := by
  unfold Char.toLower at h
  simp only [] at h
  by_cases hr : c.toNat ≥ 65 ∧ c.toNat ≤ 90
  · rw [if_pos hr] at h
    obtain ⟨h1, h2⟩ := hr
    exfalso
    interval_cases hn : c.toNat <;> exact absurd h (by decide)
  · rw [if_neg hr] at h
    exact h

theorem splitFirst_eq_none {l : List Char} {c : Char} (h : splitFirst l c = none) :
    c ∉ l := by
  unfold splitFirst at h
  intro hmem
  rcases hd : l.dropWhile (fun x => x ≠ c) with _ | ⟨y, ys⟩
  · rw [List.dropWhile_eq_nil_iff] at hd
    have := hd c hmem
    simp at this
  · simp only [hd] at h
    exact absurd h (by simp)

theorem splitFirst_fst {l a b : List Char} {c : Char}
    (h : splitFirst l c = some (a, b)) : a = l.takeWhile (fun x => x ≠ c) := by
  unfold splitFirst at h
  rcases hd : l.dropWhile (fun x => x ≠ c) with _ | ⟨y, ys⟩
  · simp only [hd] at h
    exact absurd h (by simp)
  · simp only [hd, Option.some.injEq, Prod.mk.injEq] at h
    exact h.1.symm

theorem scheme_no_qmark (l : List Char) :
    '?' ∉ (match splitFirst l ':' with
           | some (a, b) =>
             if a ≠ [] ∧ (a.headD ' ').isAlpha ∧ a.all schemeChar
             then (a.map Char.toLower, b) else ([], l)
           | none => ([], l)).1 := by
  rcases h : splitFirst l ':' with _ | ⟨a, b⟩ <;> simp only [h]
  · simp
  by_cases hc : a ≠ [] ∧ (a.headD ' ').isAlpha ∧ a.all schemeChar
  · rw [if_pos hc]
    intro hm
    rcases List.mem_map.mp hm with ⟨c, hca, hlc⟩
    have hcs : schemeChar c := by
      have h2 := hc.2.2
      rw [List.all_eq_true] at h2
      exact h2 c hca
    rw [toLower_eq_qmark c hlc] at hcs
    exact absurd hcs (by decide)
  · rw [if_neg hc]; simp

theorem netloc_no_qmark (rest : List Char) :
    '?' ∉ (if rest.take 2 = ['/', '/'] then
        ((rest.drop 2).takeWhile (fun c => c ≠ '/' ∧ c ≠ '?' ∧ c ≠ '#'),
         (rest.drop 2).drop
           ((rest.drop 2).takeWhile (fun c => c ≠ '/' ∧ c ≠ '?' ∧ c ≠ '#')).length)
      else ([], rest)).1 := by
  by_cases h : rest.take 2 = ['/', '/']
  · rw [if_pos h]
    intro hm
    have := List.mem_takeWhile_imp hm
    simp at this
  · rw [if_neg h]; simp

theorem splitFirst_pair_fst_no (l : List Char) (c : Char) :
    c ∉ (match splitFirst l c with
         | some (a, b) => (a, b)
         | none => (l, [])).1 := by
  rcases h : splitFirst l c with _ | ⟨a, b⟩ <;> simp only [h]
  · exact splitFirst_eq_none h
  · rw [splitFirst_fst h]
    intro hm
    have := List.mem_takeWhile_imp hm
    simp at this

theorem urlsplit_scheme_no_qmark (url : String) : '?' ∉ (urlsplit url).scheme.data := by
  unfold urlsplit
  dsimp only
  exact scheme_no_qmark url.data

theorem urlsplit_netloc_no_qmark (url : String) : '?' ∉ (urlsplit url).netloc.data := by
  unfold urlsplit
  dsimp only
  exact netloc_no_qmark _

theorem urlsplit_path_no_qmark (url : String) : '?' ∉ (urlsplit url).path.data := by
  unfold urlsplit
  dsimp only
  exact splitFirst_pair_fst_no _ '?'

theorem sanitize_url_no_query (url : String) :
    '?' ∉ (sanitize_url_for_logging url).data := by
  intro hmem
  unfold sanitize_url_for_logging at hmem
  dsimp only at hmem
  simp only [String.data_append] at hmem
  rcases List.mem_append.mp hmem with h1 | h2
  · rcases List.mem_append.mp h1 with h3 | h4
    · rcases List.mem_append.mp h3 with h5 | h6
      · exact urlsplit_scheme_no_qmark url h5
      · exact absurd h6 (by decide)
    · exact urlsplit_netloc_no_qmark url h4
  · exact urlsplit_path_no_qmark url h2

theorem tokenAppears_append_left (t s x : String) (h : tokenAppears t s) :
    tokenAppears t (x ++ s) := by
  obtain ⟨a, b, hs⟩ := h
  exact ⟨x ++ a, b, by rw [hs]; simp [String.append_assoc]⟩

theorem tokenAppears_append_right (t s x : String) (h : tokenAppears t s) :
    tokenAppears t (s ++ x) := by
  obtain ⟨a, b, hs⟩ := h
  exact ⟨a, b ++ x, by rw [hs]; simp [String.append_assoc]⟩

theorem appendTokenToUrl_appears (url token : String) :
    tokenAppears token (appendTokenToUrl url token) := by
  unfold appendTokenToUrl
  by_cases h : url.data.contains '?'
  · rw [if_pos h]
    exact ⟨url ++ "&token=", "&nsfw=true", rfl⟩
  · rw [if_neg h]
    exact ⟨url ++ "?token=", "&nsfw=true", rfl⟩

/-! ## Claim C5 -/

/-- C5 counterexample: the claim states that the token never appears in
the failure ledger and is never sent as a URL query parameter.  In the
downloader, `download_model_files` appends `token=...` to the file URL's
query string and writes that URL verbatim into
`failed_downloads_{username}.txt` when the download fails: the concrete
token `SECRETTOKEN` occurs inside the ledger entry, and the built URL
carries it in its query component. -/
theorem c5_token_leak_counterexample :
    tokenAppears "SECRETTOKEN"
      (failed_download_entry "My Lora" "v1"
        (appendTokenToUrl "https://civitai.com/api/download/models/1" "SECRETTOKEN")) ∧
    (urlsplit (appendTokenToUrl "https://civitai.com/api/download/models/1"
      "SECRETTOKEN")).query = "token=SECRETTOKEN&nsfw=true" := by
  constructor
  · exact ⟨"Item Name: My Lora - v1\nFile URL: https://civitai.com/api/download/models/1?token=",
      "&nsfw=true\n---\n", by decide⟩
  · decide

/-- C5 (amended): `fetch_all_models` keeps the credential out of URLs and
logs — `sanitize_url_for_logging` never leaves a `?` (so no query
parameter survives into a logged URL) and the token travels only inside
the `Authorization: Bearer` header; the downloader, however, appends the
token to every file URL as a query parameter, and that token-bearing URL
is exactly what `failed_download_entry` records in the failure ledger. -/
theorem c5_token_handling_amended :
    (∀ url : String, '?' ∉ (sanitize_url_for_logging url).data) ∧
    (∀ t : String, t ≠ "" → fetch_all_models_headers t =
      [("Authorization", "Bearer " ++ t)]) ∧
    (∀ url token : String, tokenAppears token (appendTokenToUrl url token)) ∧
    (∀ item version url token : String,
      tokenAppears token (failed_download_entry item version (appendTokenToUrl url token))) := by
  refine ⟨sanitize_url_no_query, ?_, appendTokenToUrl_appears, ?_⟩
  · intro t ht
    unfold fetch_all_models_headers
    rw [if_neg ht]
  · intro item version url token
    unfold failed_download_entry
    refine tokenAppears_append_right _ _ _ ?_
    refine tokenAppears_append_right _ _ _ ?_
    exact tokenAppears_append_left _ _ _ (appendTokenToUrl_appears url token)

/-- C5 amended, witnessed at a concrete token and URL. -/
theorem c5_token_handling_amended_witness :
    ('?' ∉ (sanitize_url_for_logging
      "https://civitai.com/api/v1/models?token=HUSH").data) ∧
    fetch_all_models_headers "HUSH" = [("Authorization", "Bearer " ++ "HUSH")] ∧
    tokenAppears "HUSH" (appendTokenToUrl "https://civitai.com/f" "HUSH") :=
  ⟨c5_token_handling_amended.1 "https://civitai.com/api/v1/models?token=HUSH",
   c5_token_handling_amended.2.1 "HUSH" (by decide),
   c5_token_handling_amended.2.2.1 "https://civitai.com/f" "HUSH"⟩

theorem fsGet_fsRemove_self {α : Type} (fs : List (String × α)) (p : String) :
    fsGet (fsRemove fs p) p = none := by
  induction fs with
  | nil => rfl
  | cons kv rest ih =>
    obtain ⟨k, v⟩ := kv
    by_cases h : k = p
    · simp [fsRemove, h, ih]
    · simp [fsRemove, fsGet, h, ih]

theorem fsGet_fsRemove_ne {α : Type} (fs : List (String × α)) (p q : String)
    (h : q ≠ p) : fsGet (fsRemove fs p) q = fsGet fs q := by
  induction fs with
  | nil => rfl
  | cons kv rest ih =>
    obtain ⟨k, v⟩ := kv
    by_cases hk : k = p
    · have hkq : ¬ k = q := fun he => h (by rw [← he, hk])
      have hpq : ¬ p = q := fun he => h he.symm
      simp [fsRemove, fsGet, hk, hkq, hpq, ih]
    · by_cases hq : k = q
      · simp [fsRemove, fsGet, hk, hq, h, ih]
      · simp [fsRemove, fsGet, hk, hq, ih]

theorem fsGet_fsSet_self {α : Type} (fs : List (String × α)) (p : String) (v : α) :
    fsGet (fsSet fs p v) p = some v := by
  simp [fsSet, fsGet]

theorem fsGet_fsSet_ne {α : Type} (fs : List (String × α)) (p q : String) (v : α)
    (h : q ≠ p) : fsGet (fsSet fs p v) q = fsGet fs q := by
  have hpq : ¬ p = q := fun he => h he.symm
  simp [fsSet, fsGet, hpq, fsGet_fsRemove_ne fs p q h]

theorem temp_ne_dest (d : String) : d ++ ".tmp" ≠ d := by
  intro h
  have h2 := congrArg String.length h
  rw [String.length_append] at h2
  have h3 : (".tmp" : String).length = 4 := rfl
  omega

theorem skip_stage_spec (force vf : Bool) (hashFn : String → List Nat → Option String)
    (fs : FS) (p : String) (info : Option FileInfo) :
    (match info with
     | some fi => should_skip_download force vf hashFn fs p fi
     | none => ((false : Bool), fs)) = (false, fs) ∨
    (match info with
     | some fi => should_skip_download force vf hashFn fs p fi
     | none => ((false : Bool), fs)) = (true, fs) ∨
    (match info with
     | some fi => should_skip_download force vf hashFn fs p fi
     | none => ((false : Bool), fs)) = (false, fsRemove fs p) := by
  cases info with
  | none => exact Or.inl rfl
  | some fi =>
    dsimp only
    unfold should_skip_download
    by_cases hf : force = true
    · rw [if_pos hf]; exact Or.inl rfl
    rw [if_neg hf]
    rcases hg : fsGet fs p with _ | bytes <;> simp only [hg]
    · exact Or.inl trivial
    · by_cases hv : verify_file_integrity p (some bytes) fi.sizeKB fi.hashes vf hashFn = true
      · rw [if_pos hv]; exact Or.inr (Or.inl rfl)
      · rw [if_neg hv]; exact Or.inr (Or.inr rfl)

/-- The safety contract of one `download_file_or_image` run: no temporary
file survives, and the destination is unchanged, absent, or holds a
complete streamed body that passed verification whenever file metadata was
supplied. -/
def DlSafe (oracle : Nat → Fetch) (info : Option FileInfo) (vf : Bool)
    (hashFn : String → List Nat → Option String) (dest : String) (fs0 : FS)
    (r : DlResult) : Prop :=
  fsGet r.fs (dest ++ ".tmp") = none ∧
  (fsGet r.fs dest = fsGet fs0 dest ∨ fsGet r.fs dest = none ∨
    ∃ body k code, oracle k = Fetch.resp code body ∧ code ≠ 404 ∧ code < 400 ∧
      fsGet r.fs dest = some body ∧
      ∀ fi, info = some fi →
        verify_file_integrity (dest ++ ".tmp") (some body) fi.sizeKB fi.hashes vf hashFn = true)

theorem DlSafe_mono {oracle : Nat → Fetch} {info : Option FileInfo} {vf : Bool}
    {hashFn : String → List Nat → Option String} {dest : String} {fs fs' : FS}
    {r : DlResult} (h : DlSafe oracle info vf hashFn dest fs' r)
    (hd : fsGet fs' dest = fsGet fs dest ∨ fsGet fs' dest = none) :
    DlSafe oracle info vf hashFn dest fs r := by
  obtain ⟨ht, hdest⟩ := h
  refine ⟨ht, ?_⟩
  rcases hdest with h1 | h2 | h3
  · rcases hd with hd1 | hd2
    · exact Or.inl (h1.trans hd1)
    · exact Or.inr (Or.inl (h1.trans hd2))
  · exact Or.inr (Or.inl h2)
  · exact Or.inr (Or.inr h3)

theorem download_aux_safety (hashFn : String → List Nat → Option String)
    (vf force : Bool) (oracle : Nat → Fetch) (url dest : String)
    (info : Option FileInfo) :
    ∀ (remaining rc : Nat) (fs : FS), fsGet fs (dest ++ ".tmp") = none →
    DlSafe oracle info vf hashFn dest fs
      (download_aux hashFn vf force oracle url dest info remaining rc fs) := by
  have hne : ∀ d : String, d ≠ d ++ ".tmp" := fun d => (temp_ne_dest d).symm
  intro remaining
  induction remaining with
  | zero =>
    intro rc fs htemp
    unfold download_aux
    rcases skip_stage_spec force vf hashFn fs dest info with hskip | hskip | hskip <;>
      simp only [hskip]
    · rw [if_neg (by simp)]
      rcases ho : oracle rc with ⟨code, body⟩ | partialBytes <;> dsimp only
      · by_cases h404 : code = 404
        · rw [if_pos h404]
          exact ⟨htemp, Or.inl rfl⟩
        rw [if_neg h404]
        by_cases h400 : 400 ≤ code
        · rw [if_pos h400]
          exact ⟨fsGet_fsRemove_self _ _,
            Or.inl (fsGet_fsRemove_ne _ _ _ (hne dest))⟩
        rw [if_neg h400]
        cases info with
        | some fi =>
          dsimp only
          by_cases hv : verify_file_integrity (dest ++ ".tmp") (some body)
              fi.sizeKB fi.hashes vf hashFn = true
          · rw [if_pos hv]
            refine ⟨?_, Or.inr (Or.inr ⟨body, rc, code, ho, h404, by omega,
              fsGet_fsSet_self _ _ _, ?_⟩)⟩
            · rw [fsGet_fsSet_ne _ _ _ _ (temp_ne_dest dest)]
              exact fsGet_fsRemove_self _ _
            · intro fi' hfi'
              injection hfi' with hfi2
              rw [← hfi2]
              exact hv
          · rw [if_neg hv]
            refine ⟨fsGet_fsRemove_self _ _, Or.inl ?_⟩
            rw [fsGet_fsRemove_ne _ _ _ (hne dest),
              fsGet_fsSet_ne _ _ _ _ (hne dest)]
        | none =>
          dsimp only
          refine ⟨?_, Or.inr (Or.inr ⟨body, rc, code, ho, h404, by omega,
            fsGet_fsSet_self _ _ _, fun fi' hfi' => absurd hfi' (by simp)⟩)⟩
          rw [fsGet_fsSet_ne _ _ _ _ (temp_ne_dest dest)]
          exact fsGet_fsRemove_self _ _
      · refine ⟨fsGet_fsRemove_self _ _, Or.inl ?_⟩
        rw [fsGet_fsRemove_ne _ _ _ (hne dest),
          fsGet_fsSet_ne _ _ _ _ (hne dest)]
    · rw [if_pos trivial]
      exact ⟨htemp, Or.inl rfl⟩
    · rw [if_neg (by simp)]
      have htempR : fsGet (fsRemove fs dest) (dest ++ ".tmp") = none := by
        rw [fsGet_fsRemove_ne _ _ _ (temp_ne_dest dest)]
        exact htemp
      rcases ho : oracle rc with ⟨code, body⟩ | partialBytes <;> dsimp only
      · by_cases h404 : code = 404
        · rw [if_pos h404]
          exact ⟨htempR, Or.inr (Or.inl (fsGet_fsRemove_self _ _))⟩
        rw [if_neg h404]
        by_cases h400 : 400 ≤ code
        · rw [if_pos h400]
          refine ⟨fsGet_fsRemove_self _ _, Or.inr (Or.inl ?_)⟩
          rw [fsGet_fsRemove_ne _ _ _ (hne dest)]
          exact fsGet_fsRemove_self _ _
        rw [if_neg h400]
        cases info with
        | some fi =>
          dsimp only
          by_cases hv : verify_file_integrity (dest ++ ".tmp") (some body)
              fi.sizeKB fi.hashes vf hashFn = true
          · rw [if_pos hv]
            refine ⟨?_, Or.inr (Or.inr ⟨body, rc, code, ho, h404, by omega,
              fsGet_fsSet_self _ _ _, ?_⟩)⟩
            · rw [fsGet_fsSet_ne _ _ _ _ (temp_ne_dest dest)]
              exact fsGet_fsRemove_self _ _
            · intro fi' hfi'
              injection hfi' with hfi2
              rw [← hfi2]
              exact hv
          · rw [if_neg hv]
            refine ⟨fsGet_fsRemove_self _ _, Or.inr (Or.inl ?_)⟩
            rw [fsGet_fsRemove_ne _ _ _ (hne dest),
              fsGet_fsSet_ne _ _ _ _ (hne dest)]
            exact fsGet_fsRemove_self _ _
        | none =>
          dsimp only
          refine ⟨?_, Or.inr (Or.inr ⟨body, rc, code, ho, h404, by omega,
            fsGet_fsSet_self _ _ _, fun fi' hfi' => absurd hfi' (by simp)⟩)⟩
          rw [fsGet_fsSet_ne _ _ _ _ (temp_ne_dest dest)]
          exact fsGet_fsRemove_self _ _
      · refine ⟨fsGet_fsRemove_self _ _, Or.inr (Or.inl ?_)⟩
        rw [fsGet_fsRemove_ne _ _ _ (hne dest),
          fsGet_fsSet_ne _ _ _ _ (hne dest)]
        exact fsGet_fsRemove_self _ _
  | succ r ih =>
    intro rc fs htemp
    unfold download_aux
    rcases skip_stage_spec force vf hashFn fs dest info with hskip | hskip | hskip <;>
      simp only [hskip]
    · rw [if_neg (by simp)]
      rcases ho : oracle rc with ⟨code, body⟩ | partialBytes <;> dsimp only
      · by_cases h404 : code = 404
        · rw [if_pos h404]
          exact ⟨htemp, Or.inl rfl⟩
        rw [if_neg h404]
        by_cases h400 : 400 ≤ code
        · rw [if_pos h400]
          refine DlSafe_mono (ih (rc + 1) _ (fsGet_fsRemove_self _ _)) ?_
          exact Or.inl (fsGet_fsRemove_ne _ _ _ (hne dest))
        rw [if_neg h400]
        cases info with
        | some fi =>
          dsimp only
          by_cases hv : verify_file_integrity (dest ++ ".tmp") (some body)
              fi.sizeKB fi.hashes vf hashFn = true
          · rw [if_pos hv]
            refine ⟨?_, Or.inr (Or.inr ⟨body, rc, code, ho, h404, by omega,
              fsGet_fsSet_self _ _ _, ?_⟩)⟩
            · rw [fsGet_fsSet_ne _ _ _ _ (temp_ne_dest dest)]
              exact fsGet_fsRemove_self _ _
            · intro fi' hfi'
              injection hfi' with hfi2
              rw [← hfi2]
              exact hv
          · rw [if_neg hv]
            refine DlSafe_mono (ih (rc + 1) _ (fsGet_fsRemove_self _ _)) ?_
            refine Or.inl ?_
            rw [fsGet_fsRemove_ne _ _ _ (hne dest),
              fsGet_fsSet_ne _ _ _ _ (hne dest)]
        | none =>
          dsimp only
          refine ⟨?_, Or.inr (Or.inr ⟨body, rc, code, ho, h404, by omega,
            fsGet_fsSet_self _ _ _, fun fi' hfi' => absurd hfi' (by simp)⟩)⟩
          rw [fsGet_fsSet_ne _ _ _ _ (temp_ne_dest dest)]
          exact fsGet_fsRemove_self _ _
      · refine DlSafe_mono (ih (rc + 1) _ (fsGet_fsRemove_self _ _)) ?_
        refine Or.inl ?_
        rw [fsGet_fsRemove_ne _ _ _ (hne dest),
          fsGet_fsSet_ne _ _ _ _ (hne dest)]
    · rw [if_pos trivial]
      exact ⟨htemp, Or.inl rfl⟩
    · rw [if_neg (by simp)]
      rcases ho : oracle rc with ⟨code, body⟩ | partialBytes <;> dsimp only
      · by_cases h404 : code = 404
        · rw [if_pos h404]
          refine ⟨?_, Or.inr (Or.inl (fsGet_fsRemove_self _ _))⟩
          rw [fsGet_fsRemove_ne _ _ _ (temp_ne_dest dest)]
          exact htemp
        rw [if_neg h404]
        by_cases h400 : 400 ≤ code
        · rw [if_pos h400]
          refine DlSafe_mono (ih (rc + 1) _ (fsGet_fsRemove_self _ _)) ?_
          refine Or.inr ?_
          rw [fsGet_fsRemove_ne _ _ _ (hne dest)]
          exact fsGet_fsRemove_self _ _
        rw [if_neg h400]
        cases info with
        | some fi =>
          dsimp only
          by_cases hv : verify_file_integrity (dest ++ ".tmp") (some body)
              fi.sizeKB fi.hashes vf hashFn = true
          · rw [if_pos hv]
            refine ⟨?_, Or.inr (Or.inr ⟨body, rc, code, ho, h404, by omega,
              fsGet_fsSet_self _ _ _, ?_⟩)⟩
            · rw [fsGet_fsSet_ne _ _ _ _ (temp_ne_dest dest)]
              exact fsGet_fsRemove_self _ _
            · intro fi' hfi'
              injection hfi' with hfi2
              rw [← hfi2]
              exact hv
          · rw [if_neg hv]
            refine DlSafe_mono (ih (rc + 1) _ (fsGet_fsRemove_self _ _)) ?_
            refine Or.inr ?_
            rw [fsGet_fsRemove_ne _ _ _ (hne dest),
              fsGet_fsSet_ne _ _ _ _ (hne dest)]
            exact fsGet_fsRemove_self _ _
        | none =>
          dsimp only
          refine ⟨?_, Or.inr (Or.inr ⟨body, rc, code, ho, h404, by omega,
            fsGet_fsSet_self _ _ _, fun fi' hfi' => absurd hfi' (by simp)⟩)⟩
          rw [fsGet_fsSet_ne _ _ _ _ (temp_ne_dest dest)]
          exact fsGet_fsRemove_self _ _
      · refine DlSafe_mono (ih (rc + 1) _ (fsGet_fsRemove_self _ _)) ?_
        refine Or.inr ?_
        rw [fsGet_fsRemove_ne _ _ _ (hne dest),
          fsGet_fsSet_ne _ _ _ _ (hne dest)]
        exact fsGet_fsRemove_self _ _

theorem download_aux_attempts_le (hashFn : String → List Nat → Option String)
    (vf force : Bool) (oracle : Nat → Fetch) (url dest : String)
    (info : Option FileInfo) :
    ∀ (remaining rc : Nat) (fs : FS),
      (download_aux hashFn vf force oracle url dest info remaining rc fs).attempts ≤
        remaining + 1 := by
  intro remaining
  induction remaining with
  | zero =>
    intro rc fs
    unfold download_aux
    rcases skip_stage_spec force vf hashFn fs dest info with hskip | hskip | hskip <;>
      simp only [hskip] <;>
      rcases ho : oracle rc with ⟨code, body⟩ | partialBytes <;>
      dsimp only <;>
      (repeat' split) <;>
      first | omega | simp_all
  | succ r ih =>
    intro rc fs
    have hihs : ∀ (rc' : Nat) (fs' : FS),
        (download_aux hashFn vf force oracle url dest info r rc' fs').attempts ≤ r + 1 :=
      fun rc' fs' => ih rc' fs'
    unfold download_aux
    rcases skip_stage_spec force vf hashFn fs dest info with hskip | hskip | hskip <;>
      simp only [hskip] <;>
      rcases ho : oracle rc with ⟨code, body⟩ | partialBytes <;>
      dsimp only <;>
      (repeat' split) <;>
      first | omega | simp_all

theorem skip_stage_none (force vf : Bool) (hashFn : String → List Nat → Option String)
    (fs : FS) (p : String) (info : Option FileInfo) (hdest : fsGet fs p = none) :
    (match info with
     | some fi => should_skip_download force vf hashFn fs p fi
     | none => ((false : Bool), fs)) = (false, fs) := by
  cases info with
  | none => rfl
  | some fi =>
    dsimp only
    unfold should_skip_download
    by_cases hf : force = true
    · rw [if_pos hf]
    · rw [if_neg hf, hdest]

theorem download_aux_sleeps (hashFn : String → List Nat → Option String)
    (vf force : Bool) (oracle : Nat → Fetch) (url dest : String)
    (info : Option FileInfo) :
    ∀ (remaining rc : Nat) (fs : FS), fsGet fs dest = none →
      (download_aux hashFn vf force oracle url dest info remaining rc fs).attempts =
        (download_aux hashFn vf force oracle url dest info remaining rc fs).sleeps + 1 := by
  have hne : ∀ d : String, d ≠ d ++ ".tmp" := fun d => (temp_ne_dest d).symm
  intro remaining
  induction remaining with
  | zero =>
    intro rc fs hdest
    unfold download_aux
    simp only [skip_stage_none force vf hashFn fs dest info hdest] <;>
      rcases ho : oracle rc with ⟨code, body⟩ | partialBytes <;>
      dsimp only <;>
      (repeat' split) <;>
      first | omega | simp_all
  | succ r ih =>
    intro rc fs hdest
    have hd1 : fsGet (fsRemove fs (dest ++ ".tmp")) dest = none := by
      rw [fsGet_fsRemove_ne _ _ _ (hne dest)]; exact hdest
    have hd2 : ∀ b : List Nat,
        fsGet (fsRemove (fsSet fs (dest ++ ".tmp") b) (dest ++ ".tmp")) dest = none := by
      intro b
      rw [fsGet_fsRemove_ne _ _ _ (hne dest), fsGet_fsSet_ne _ _ _ _ (hne dest)]
      exact hdest
    unfold download_aux
    simp only [skip_stage_none force vf hashFn fs dest info hdest] <;>
      rcases ho : oracle rc with ⟨code, body⟩ | partialBytes <;>
      dsimp only <;>
      (repeat' split) <;>
      first | omega | simp_all

theorem download_aux_all401 (hashFn : String → List Nat → Option String)
    (vf force : Bool) (oracle : Nat → Fetch) (url dest : String)
    (info : Option FileInfo) (hall : ∀ k, ∃ b, oracle k = Fetch.resp 401 b) :
    ∀ (remaining rc : Nat) (fs : FS), fsGet fs dest = none →
      (download_aux hashFn vf force oracle url dest info remaining rc fs).ok = false ∧
      (download_aux hashFn vf force oracle url dest info remaining rc fs).attempts =
        remaining + 1 := by
  have hne : ∀ d : String, d ≠ d ++ ".tmp" := fun d => (temp_ne_dest d).symm
  intro remaining
  induction remaining with
  | zero =>
    intro rc fs hdest
    obtain ⟨b, hb⟩ := hall rc
    unfold download_aux
    simp only [skip_stage_none force vf hashFn fs dest info hdest, hb]
    rw [if_neg (show ¬ (401 = 404) by omega), if_pos (show (400:Nat) ≤ 401 by omega)]
    exact ⟨rfl, rfl⟩
  | succ r ih =>
    intro rc fs hdest
    obtain ⟨b, hb⟩ := hall rc
    have hd1 : fsGet (fsRemove fs (dest ++ ".tmp")) dest = none := by
      rw [fsGet_fsRemove_ne _ _ _ (hne dest)]; exact hdest
    unfold download_aux
    simp only [skip_stage_none force vf hashFn fs dest info hdest, hb]
    rw [if_neg (show ¬ (401 = 404) by omega), if_pos (show (400:Nat) ≤ 401 by omega)]
    obtain ⟨hok, hat⟩ := ih (rc + 1) (fsRemove fs (dest ++ ".tmp")) hd1
    simp only [Bool.false_eq_true, if_false]
    exact ⟨hok, by omega⟩

theorem download_404_terminal (hashFn : String → List Nat → Option String)
    (vf force : Bool) (oracle : Nat → Fetch) (fs : FS) (url dest : String)
    (info : Option FileInfo) (rc maxR : Nat) (body : List Nat)
    (hdest : fsGet fs dest = none) (h404 : oracle rc = Fetch.resp 404 body) :
    download_file_or_image hashFn vf force oracle fs url dest info rc maxR =
      ⟨false, fs, 1, 0⟩ := by
  unfold download_file_or_image download_aux
  simp only [skip_stage_none force vf hashFn fs dest info hdest, h404]
  rw [if_pos trivial]
  rw [if_neg (by simp)]

theorem write_summary_safe (w : WriteOutcome) (ok_replace : Bool)
    (fs : List (String × String))
    (dir user content tmp : String) (fs2 : List (String × String))
    (hne : tmp ≠ dir ++ "/" ++ user ++ ".txt")
    (h : write_summary w ok_replace fs dir user content tmp = Except.ok fs2) :
    (fsGet fs2 (dir ++ "/" ++ user ++ ".txt") =
       fsGet fs (dir ++ "/" ++ user ++ ".txt") ∨
     fsGet fs2 (dir ++ "/" ++ user ++ ".txt") = some content) ∧
    (w = WriteOutcome.written → fsGet fs2 tmp = none) ∧
    (∀ p, w = WriteOutcome.writeFailed p → fsGet fs2 tmp = some p) := by
  have hne2 : (dir ++ "/" ++ user ++ ".txt") ≠ tmp := fun he => hne he.symm
  unfold write_summary at h
  dsimp only at h
  by_cases hp : ¬ (resolveComps [] (splitSlash dir.data)).isPrefixOf
      (resolveComps [] (splitSlash (dir ++ "/" ++ user ++ ".txt").data)) = true
  · rw [if_pos hp] at h; exact absurd h (by simp)
  rw [if_neg hp] at h
  cases w with
  | creationFailed =>
    simp only [Except.ok.injEq] at h
    subst h
    refine ⟨Or.inl rfl, fun he => absurd he (by simp), fun p he => absurd he (by simp)⟩
  | writeFailed p0 =>
    simp only [Except.ok.injEq] at h
    subst h
    refine ⟨Or.inl (fsGet_fsSet_ne _ _ _ _ hne2), fun he => absurd he (by simp),
      fun p he => ?_⟩
    have hp0 : p = p0 := by
      have := WriteOutcome.writeFailed.inj he
      exact this.symm
    subst hp0
    exact fsGet_fsSet_self _ _ _
  | written =>
    by_cases hr : ok_replace = true
    · rw [if_pos hr] at h
      simp only [Except.ok.injEq] at h
      subst h
      refine ⟨Or.inr (fsGet_fsSet_self _ _ _), fun _ => ?_,
        fun p he => absurd he (by simp)⟩
      rw [fsGet_fsSet_ne _ _ _ _ hne]
      exact fsGet_fsRemove_self _ _
    · rw [if_neg hr] at h
      simp only [Except.ok.injEq] at h
      subst h
      refine ⟨Or.inl ?_, fun _ => fsGet_fsRemove_self _ _,
        fun p he => absurd he (by simp)⟩
      rw [fsGet_fsRemove_ne _ _ _ hne2]
      exact fsGet_fsSet_ne _ _ _ _ hne2

/-! ## Claim C2 -/

/-- C2 counterexample: the claim states that on every failure exit path,
including exceptions, the temporary file is removed before control returns
to the caller.  In `write_summary` the source assigns
`temp_path = tmpfile.name` only after `write`, `flush` and `os.fsync` all
succeed, so an `OSError` raised by any of those leaves `temp_path = None`;
the `except OSError` handler swallows the exception and the `finally`
guard `if temp_path and os.path.exists(temp_path)` skips the removal.
Concretely: a write that fails after producing partial bytes returns
normally (`Except.ok`) with the temporary file still present on disk,
holding the partial content. -/
theorem c2_atomic_writes_counterexample :
    write_summary (WriteOutcome.writeFailed "Line 1") true []
        "/sd" "alice" "Summary" "/sd/tmpXYZ.tmp" =
      Except.ok [("/sd/tmpXYZ.tmp", "Line 1")] ∧
    fsGet [("/sd/tmpXYZ.tmp", "Line 1")] "/sd/tmpXYZ.tmp" = some "Line 1" :=
  ⟨rfl, rfl⟩

/-- C2 (amended): for every download (any fetch oracle, any retry budget,
any file metadata) starting without a stale temporary file, no temporary
file survives the call, and the destination afterwards is unchanged,
absent, or holds a completely streamed response body that passed
`verify_file_integrity` whenever file metadata was supplied (the rename
into place is a single atomic state update).  Every successful
`write_summary` leaves the summary path either unchanged or holding the
full new content (never a partial write), with the traversal `ValueError`
raised before any file is touched; the temporary file is removed whenever
the write phase (create/write/flush/fsync) succeeded — including the
`os.replace`-failure path — but a write-phase failure leaves the
temporary file on disk with its partial content, because `temp_path` was
never assigned and the `finally` cleanup is skipped. -/
theorem c2_atomic_writes_amended :
    (∀ (hashFn : String → List Nat → Option String) (vf force : Bool)
      (oracle : Nat → Fetch) (fs : FS) (url dest : String) (info : Option FileInfo)
      (rc maxR : Nat), fsGet fs (dest ++ ".tmp") = none →
      DlSafe oracle info vf hashFn dest fs
        (download_file_or_image hashFn vf force oracle fs url dest info rc maxR)) ∧
    (∀ (w : WriteOutcome) (ok_replace : Bool) (fs : List (String × String))
      (dir user content tmp : String) (fs2 : List (String × String)),
      tmp ≠ dir ++ "/" ++ user ++ ".txt" →
      write_summary w ok_replace fs dir user content tmp = Except.ok fs2 →
      (fsGet fs2 (dir ++ "/" ++ user ++ ".txt") =
         fsGet fs (dir ++ "/" ++ user ++ ".txt") ∨
       fsGet fs2 (dir ++ "/" ++ user ++ ".txt") = some content) ∧
      (w = WriteOutcome.written → fsGet fs2 tmp = none) ∧
      (∀ p, w = WriteOutcome.writeFailed p → fsGet fs2 tmp = some p)) :=
  ⟨fun hashFn vf force oracle fs url dest info rc maxR h =>
    download_aux_safety hashFn vf force oracle url dest info (maxR - rc) rc fs h,
   write_summary_safe⟩

/-- C2 (amended) witnessed on a one-shot successful download and a fully
successful summary write. -/
theorem c2_atomic_writes_amended_witness :
    DlSafe (fun _ => Fetch.resp 200 [7]) none false noHashFn "d" []
      (download_file_or_image noHashFn false false (fun _ => Fetch.resp 200 [7])
        [] "u" "d" none 0 3) ∧
    ((fsGet [("/sd/alice.txt", "Summary")] ("/sd" ++ "/" ++ "alice" ++ ".txt") =
        fsGet ([] : List (String × String)) ("/sd" ++ "/" ++ "alice" ++ ".txt") ∨
      fsGet [("/sd/alice.txt", "Summary")] ("/sd" ++ "/" ++ "alice" ++ ".txt") =
        some "Summary") ∧
     (WriteOutcome.written = WriteOutcome.written →
       fsGet [("/sd/alice.txt", "Summary")] "/sd/tmpX.tmp" = none) ∧
     (∀ p, WriteOutcome.written = WriteOutcome.writeFailed p →
       fsGet [("/sd/alice.txt", "Summary")] "/sd/tmpX.tmp" = some p)) :=
  ⟨c2_atomic_writes_amended.1 noHashFn false false (fun _ => Fetch.resp 200 [7])
    [] "u" "d" none 0 3 (by rfl),
   c2_atomic_writes_amended.2 WriteOutcome.written true [] "/sd" "alice" "Summary"
    "/sd/tmpX.tmp" [("/sd/alice.txt", "Summary")] (by decide) (by rfl)⟩

/-! ## Claim C4 -/

/-- C4 counterexample: the claim states that HTTP 4xx
authentication/authorization failures are terminal and never retried.  In
`download_file_or_image` only 404 is special-cased; any other status of at
least 400 raises through `raise_for_status` into the generic `except`
handler, which sleeps and retries.  With a server that always answers 401
and the default budget `max_tries = 3`, the downloader performs 4 fetch
attempts instead of 1. -/
theorem c4_auth_retry_counterexample :
    (download_file_or_image noHashFn false false (fun _ => Fetch.resp 401 []) []
      "u" "d" none 0 max_tries_default).attempts = 4 ∧
    (download_file_or_image noHashFn false false (fun _ => Fetch.resp 401 []) []
      "u" "d" none 0 max_tries_default).ok = false :=
  ⟨by decide, by decide⟩

/-- C4 (amended): for a fresh destination, an HTTP 404 is terminal — the
call returns failure after exactly one attempt, no sleep, and no state
change; every run performs at most `max_retries - retry_count + 1` fetch
attempts; every attempt after the first is preceded by exactly one
fixed-delay sleep (attempts = sleeps + 1); non-404 HTTP errors, including
401/403 authentication failures, are NOT terminal: a persistently-401
server consumes the entire retry budget before the download is reported
failed; and the argparse defaults are 3 retries and a 10-second delay. -/
theorem c4_retry_policy_amended :
    (∀ (hashFn : String → List Nat → Option String) (vf force : Bool)
      (oracle : Nat → Fetch) (fs : FS) (url dest : String) (info : Option FileInfo)
      (rc maxR : Nat) (body : List Nat), fsGet fs dest = none →
      oracle rc = Fetch.resp 404 body →
      download_file_or_image hashFn vf force oracle fs url dest info rc maxR =
        ⟨false, fs, 1, 0⟩) ∧
    (∀ (hashFn : String → List Nat → Option String) (vf force : Bool)
      (oracle : Nat → Fetch) (fs : FS) (url dest : String) (info : Option FileInfo)
      (rc maxR : Nat),
      (download_file_or_image hashFn vf force oracle fs url dest info rc maxR).attempts ≤
        (maxR - rc) + 1) ∧
    (∀ (hashFn : String → List Nat → Option String) (vf force : Bool)
      (oracle : Nat → Fetch) (fs : FS) (url dest : String) (info : Option FileInfo)
      (rc maxR : Nat), fsGet fs dest = none →
      (download_file_or_image hashFn vf force oracle fs url dest info rc maxR).attempts =
        (download_file_or_image hashFn vf force oracle fs url dest info rc maxR).sleeps + 1) ∧
    (∀ (hashFn : String → List Nat → Option String) (vf force : Bool)
      (oracle : Nat → Fetch) (fs : FS) (url dest : String) (info : Option FileInfo)
      (rc maxR : Nat), fsGet fs dest = none →
      (∀ k, ∃ b, oracle k = Fetch.resp 401 b) →
      (download_file_or_image hashFn vf force oracle fs url dest info rc maxR).ok = false ∧
      (download_file_or_image hashFn vf force oracle fs url dest info rc maxR).attempts =
        (maxR - rc) + 1) ∧
    (max_tries_default = 3 ∧ retry_delay_default = 10) := by
  refine ⟨?_, ?_, ?_, ?_, rfl, rfl⟩
  · intro hashFn vf force oracle fs url dest info rc maxR body hdest h404
    exact download_404_terminal hashFn vf force oracle fs url dest info rc maxR body
      hdest h404
  · intro hashFn vf force oracle fs url dest info rc maxR
    exact download_aux_attempts_le hashFn vf force oracle url dest info (maxR - rc) rc fs
  · intro hashFn vf force oracle fs url dest info rc maxR hdest
    exact download_aux_sleeps hashFn vf force oracle url dest info (maxR - rc) rc fs hdest
  · intro hashFn vf force oracle fs url dest info rc maxR hdest hall
    exact download_aux_all401 hashFn vf force oracle url dest info hall (maxR - rc) rc fs hdest

/-- C4 amended, witnessed on concrete oracles: a 404 answer, a
always-failing network, and a persistently-401 server. -/
theorem c4_retry_policy_amended_witness :
    download_file_or_image noHashFn false false (fun _ => Fetch.resp 404 []) []
      "u" "d" none 0 3 = ⟨false, [], 1, 0⟩ ∧
    (download_file_or_image noHashFn false false (fun _ => Fetch.exn []) []
      "u" "d" none 0 3).attempts ≤ (3 - 0) + 1 ∧
    (download_file_or_image noHashFn false false (fun _ => Fetch.exn []) []
      "u" "d" none 0 3).attempts =
      (download_file_or_image noHashFn false false (fun _ => Fetch.exn []) []
        "u" "d" none 0 3).sleeps + 1 ∧
    (download_file_or_image noHashFn false false (fun _ => Fetch.resp 401 [9]) []
      "u" "d" none 0 3).ok = false ∧
    (download_file_or_image noHashFn false false (fun _ => Fetch.resp 401 [9]) []
      "u" "d" none 0 3).attempts = (3 - 0) + 1 :=
  ⟨c4_retry_policy_amended.1 noHashFn false false (fun _ => Fetch.resp 404 []) []
    "u" "d" none 0 3 [] (by rfl) (by rfl),
   c4_retry_policy_amended.2.1 noHashFn false false (fun _ => Fetch.exn []) []
    "u" "d" none 0 3,
   c4_retry_policy_amended.2.2.1 noHashFn false false (fun _ => Fetch.exn []) []
    "u" "d" none 0 3 (by rfl),
   c4_retry_policy_amended.2.2.2.1 noHashFn false false (fun _ => Fetch.resp 401 [9]) []
    "u" "d" none 0 3 (by rfl) (fun k => ⟨[9], rfl⟩)⟩
